import Mathlib

/- Shallow embedding of the delimited-text codec and the record-set transforms
   of the PolisJAPAN server (the `CSV` utility class and the `Common` utility
   class).  Python strings are modelled as lists of characters; Python dicts as
   association lists built with insert-or-update-in-place semantics, which is
   exactly the key/insertion-order behaviour of CPython dicts. -/

abbrev PyStr := List Char

abbrev Rcd := List (PyStr × PyStr)

/-- Python `str.isspace` for one character: the CPython whitespace code points
    (ASCII whitespace, the C1 controls 0x1c-0x1f, NEL, NBSP and the Unicode
    space separators).  U+FEFF is deliberately *not* whitespace. -/
def pyIsSpaceChar (c : Char) : Bool :=
  let n := c.toNat
  (9 ≤ n && n ≤ 13) || (28 ≤ n && n ≤ 32) || n == 133 || n == 160 || n == 5760 ||
  (8192 ≤ n && n ≤ 8202) || n == 8232 || n == 8233 || n == 8239 || n == 8287 || n == 12288

/-- Leading-whitespace removal (half of Python `str.strip()`). -/
def pyStripL (s : PyStr) : PyStr := s.dropWhile pyIsSpaceChar

/-- Trailing-whitespace removal (the other half of Python `str.strip()`). -/
def pyStripR : PyStr → PyStr
  | [] => []
  | c :: t =>
    let r := pyStripR t
    if r.isEmpty && pyIsSpaceChar c then [] else c :: r

/-- Python `str.strip()`. -/
def pyStrip (s : PyStr) : PyStr := pyStripR (pyStripL s)

/-- Python `h.lstrip("\ufeff")`: drop every leading U+FEFF character. -/
def lstripBOM (s : PyStr) : PyStr := s.dropWhile (fun c => c == '\uFEFF')

/-- Python `text.replace("\r\n", "\n")` (leftmost, non-overlapping). -/
def replCRLF : PyStr → PyStr
  | '\r' :: '\n' :: t => '\n' :: replCRLF t
  | c :: t => c :: replCRLF t
  | [] => []

/-- Python `text.replace("\r", "\n")`. -/
def replCR (s : PyStr) : PyStr := s.map (fun c => if c = '\r' then '\n' else c)

/-- The newline normalization done first by the analyzer. -/
def pyNormalize (s : PyStr) : PyStr := replCR (replCRLF s)

/-- Python `text.split("\n")`. -/
def pySplitNL : PyStr → List PyStr
  | [] => [[]]
  | c :: t =>
    if c = '\n' then [] :: pySplitNL t
    else
      match pySplitNL t with
      | [] => [[c]]
      | s :: ss => (c :: s) :: ss

/-- The quote-aware single-line splitter used only by delimiter detection
    (`_split_line_for_guess`): `d` is the candidate delimiter. -/
def sgAux (d : Char) : PyStr → Bool → PyStr → List PyStr → List PyStr
  | [], _, cur, acc => acc ++ [cur]
  | '"' :: '"' :: r2, true, cur, acc => sgAux d r2 true (cur ++ ['"']) acc
  | '"' :: rest, true, cur, acc => sgAux d rest false cur acc
  | '"' :: rest, false, cur, acc => sgAux d rest true cur acc
  | c :: rest, inq, cur, acc =>
    if inq = false ∧ c = d then sgAux d rest false [] (acc ++ [cur])
    else sgAux d rest inq (cur ++ [c]) acc

def splitLineForGuess (line : PyStr) (d : Char) : List PyStr := sgAux d line false [] []

/-- Delimiter auto-detection applied to the first non-blank line: among the
    candidates `, \t ;` pick the first reaching the strictly highest field
    count, starting from the default `(',', 0)`. -/
def guessFromLine (firstLine : PyStr) : Char :=
  (([',', '\t', ';'].foldl (fun best d =>
      let count := (splitLineForGuess firstLine d).length
      if count > best.2 then (d, count) else best) (',', 0))).1

def guessDelimiter (text : PyStr) : Char :=
  guessFromLine (((pySplitNL text).find? (fun ln => decide (pyStrip ln ≠ []))).getD [])

/-- The character-level tokenizer loop of the analyzer: quote state, field
    buffer, row buffer, and the unconditional final flush of field and row.
    The delimiter is kept as a string and compared against the one-character
    string `[c]`, exactly as Python compares `ch == delimiter`. -/
def scanCSV (delim : PyStr) : PyStr → Bool → PyStr → List PyStr → List (List PyStr) → List (List PyStr)
  | [], _, field, row, rows => rows ++ [row ++ [field]]
  | '"' :: '"' :: r2, true, field, row, rows => scanCSV delim r2 true (field ++ ['"']) row rows
  | '"' :: rest, true, field, row, rows => scanCSV delim rest false field row rows
  | c :: rest, true, field, row, rows => scanCSV delim rest true (field ++ [c]) row rows
  | '"' :: rest, false, field, row, rows => scanCSV delim rest true field row rows
  | c :: rest, false, field, row, rows =>
    if [c] = delim then scanCSV delim rest false [] (row ++ [field]) rows
    else if c = '\n' then scanCSV delim rest false [] [] (rows ++ [row ++ [field]])
    else scanCSV delim rest false (field ++ [c]) row rows

/-- The same scan with the delimiter branch removed: fields end only at
    newlines; quote handling is unchanged. -/
def scanNoDelim : PyStr → Bool → PyStr → List PyStr → List (List PyStr) → List (List PyStr)
  | [], _, field, row, rows => rows ++ [row ++ [field]]
  | '"' :: '"' :: r2, true, field, row, rows => scanNoDelim r2 true (field ++ ['"']) row rows
  | '"' :: rest, true, field, row, rows => scanNoDelim rest false field row rows
  | c :: rest, true, field, row, rows => scanNoDelim rest true (field ++ [c]) row rows
  | '"' :: rest, false, field, row, rows => scanNoDelim rest true field row rows
  | c :: rest, false, field, row, rows =>
    if c = '\n' then scanNoDelim rest false [] [] (rows ++ [row ++ [field]])
    else scanNoDelim rest false (field ++ [c]) row rows

/-- Column-count normalization for one row: `r[:cols]` then pad with `""`. -/
def truncPad (cols : Nat) (r : List PyStr) : List PyStr :=
  r.take cols ++ List.replicate (cols - (r.take cols).length) []

/-- The blank-row test `all((v or "").strip() == "" for v in r)`. -/
def isBlankRow (r : List PyStr) : Bool := r.all (fun v => decide (pyStrip v = []))

/-- The per-row loop of the analyzer: skip a blank raw row, otherwise
    truncate/pad it to the header width. -/
def normalizeRows (cols : Nat) : List (List PyStr) → List (List PyStr)
  | [] => []
  | r :: t => if isBlankRow r then normalizeRows cols t else truncPad cols r :: normalizeRows cols t

def autoStr : PyStr := ['a', 'u', 't', 'o']

/-- The delimiter actually used by one analyzer call. -/
def usedDelim (text delimiter : PyStr) : PyStr :=
  if delimiter = autoStr then [guessDelimiter (pyNormalize text)] else delimiter

/-- The raw token rows (header row included) produced by the scan. -/
def tokenRows (text delimiter : PyStr) : List (List PyStr) :=
  scanCSV (usedDelim text delimiter) (pyNormalize text) false [] [] []

/-- Header-cell cleanup: `h.lstrip("\ufeff").strip()`. -/
def headerClean (h : PyStr) : PyStr := pyStrip (lstripBOM h)

/-- `_analyze_csv`: normalized data rows, headers, and the delimiter used. -/
def analyzeCsv (text delimiter : PyStr) : List (List PyStr) × List PyStr × PyStr :=
  let rows := tokenRows text delimiter
  let headers0 := match rows with | [] => [] | h :: _ => h
  let rest := match rows with | [] => [] | _ :: t => t
  let headers := headers0.map headerClean
  (normalizeRows headers.length rest, headers, usedDelim text delimiter)

/-- CPython dict insert: update the value in place when the key is present,
    append the new pair otherwise. -/
def dinsert {β : Type} (d : List (PyStr × β)) (k : PyStr) (v : β) : List (PyStr × β) :=
  if d.any (fun p => decide (p.1 = k)) then
    d.map (fun p => if p.1 = k then (k, v) else p)
  else d ++ [(k, v)]

/-- A dict built from a sequence of key/value pairs, left to right. -/
def buildDict {β : Type} (ps : List (PyStr × β)) : List (PyStr × β) :=
  ps.foldl (fun d p => dinsert d p.1 p.2) []

/-- One record of `rows_to_objects`: `{h: r[i] if i < len(r) else "" ...}`. -/
def recordOf (headers : List PyStr) (r : List PyStr) : Rcd :=
  buildDict (headers.enum.map (fun ih => (ih.2, r.getD ih.1 [])))

def rowsToObjects (rows : List (List PyStr)) (headers : List PyStr) : List Rcd :=
  rows.map (recordOf headers)

/-- `parse_csv`. -/
def parseCsv (text delimiter : PyStr) : List Rcd :=
  rowsToObjects (analyzeCsv text delimiter).1 (analyzeCsv text delimiter).2.1

/-- `rec[k]` / `rec.get(k)` on the association-list model of a dict. -/
def pyGet (r : Rcd) (k : PyStr) : Option PyStr :=
  (r.find? (fun p => decide (p.1 = k))).map Prod.snd

/-- `rec.get(k, dflt)`. -/
def pyGetD (r : Rcd) (k : PyStr) (dflt : PyStr) : PyStr := (pyGet r k).getD dflt

/-- The cells `to_csv` emits for one record: `[rec.get(h, "") for h in headers]`. -/
def projCells (headers : List PyStr) (rec : Rcd) : List PyStr :=
  headers.map (fun h => pyGetD rec h [])

/-- Does `hay` start with `needle`? -/
def leadsWith : PyStr → PyStr → Bool
  | [], _ => true
  | _ :: _, [] => false
  | a :: as, b :: bs => a == b && leadsWith as bs

/-- Python substring test `needle in hay`. -/
def hasSub (needle : PyStr) : PyStr → Bool
  | [] => needle.isEmpty
  | c :: t => leadsWith needle (c :: t) || hasSub needle t

/-- `_needs_quote`: delimiter, newline, carriage return, double quote, or
    surrounding whitespace forces quoting. -/
def needsQuote (delim s : PyStr) : Bool :=
  hasSub delim s || decide ('\n' ∈ s) || decide ('\r' ∈ s) || decide ('"' ∈ s) ||
    decide (s ≠ pyStrip s)

/-- `s.replace('"', '""')`. -/
def escQuotes : PyStr → PyStr
  | [] => []
  | c :: t => (if c = '"' then ['"', '"'] else [c]) ++ escQuotes t

/-- `_quote`: wrap in double quotes after escaping inner quotes. -/
def quoteCell (s : PyStr) : PyStr := '"' :: (escQuotes s ++ ['"'])

/-- One emitted cell of `_emit_row`. -/
def emitCell (delim s : PyStr) : PyStr := if needsQuote delim s then quoteCell s else s

/-- Python `sep.join(parts)`. -/
def pyJoin (sep : PyStr) : List PyStr → PyStr
  | [] => []
  | [l] => l
  | l :: t => l ++ sep ++ pyJoin sep t

/-- `_emit_row`: quote each cell as needed and join with the delimiter. -/
def emitRow (delim : PyStr) (cells : List PyStr) : PyStr :=
  pyJoin delim (cells.map (emitCell delim))

/-- `to_csv` on string-valued records (`_to_str` is the identity there):
    header line first, then one line per record looking every header up with
    `rec.get(h, "")`; join with `newline`; prepend U+FEFF when `includeBom`. -/
def toCsv (records : List Rcd) (headers : List PyStr) (delim : PyStr)
    (includeBom : Bool) (newline : PyStr) : PyStr :=
  let headerLine := emitRow delim headers
  let lines := headerLine :: records.map (fun r => emitRow delim (headers.map (fun h => pyGetD r h [])))
  let body := pyJoin newline lines
  if includeBom then '\uFEFF' :: body else body

def idKey : PyStr := ['i', 'd']

/-- The dict-building passes of `merge_lists`: `none` models the `KeyError`
    Python raises when a record lacks the `"id"` key; `item.copy()` is the
    identity on immutable values. -/
def indexById (acc : List (PyStr × Rcd)) : List Rcd → Option (List (PyStr × Rcd))
  | [] => some acc
  | item :: t =>
    match pyGet item idKey with
    | none => none
    | some k => indexById (dinsert acc k item) t

/-- `merge_lists`: index the base list by `"id"`, upsert every update record,
    and return the dict values in iteration order. -/
def mergeLists (base update : List Rcd) : Option (List Rcd) :=
  match indexById [] base with
  | none => none
  | some m1 =>
    match indexById m1 update with
    | none => none
    | some m2 => some (m2.map Prod.snd)

def isAsciiDigit (c : Char) : Bool := '0' ≤ c && c ≤ '9'

/-- The first code points of the 66 runs of Unicode decimal digits (category
    Nd, `Numeric_Type=Decimal`) in the CPython 3.11 / Unicode 14 tables; every
    run is ten consecutive code points carrying the digit values 0 to 9. -/
def ndStarts : List Nat :=
  [0x30, 0x660, 0x6f0, 0x7c0, 0x966, 0x9e6, 0xa66, 0xae6, 0xb66, 0xbe6,
   0xc66, 0xce6, 0xd66, 0xde6, 0xe50, 0xed0, 0xf20, 0x1040, 0x1090, 0x17e0,
   0x1810, 0x1946, 0x19d0, 0x1a80, 0x1a90, 0x1b50, 0x1bb0, 0x1c40, 0x1c50, 0xa620,
   0xa8d0, 0xa900, 0xa9d0, 0xa9f0, 0xaa50, 0xabf0, 0xff10, 0x104a0, 0x10d30, 0x11066,
   0x110f0, 0x11136, 0x111d0, 0x112f0, 0x11450, 0x114d0, 0x11650, 0x116c0, 0x11730, 0x118e0,
   0x11950, 0x11c50, 0x11d50, 0x11da0, 0x16a60, 0x16ac0, 0x16b50, 0x1d7ce, 0x1d7d8, 0x1d7e2,
   0x1d7ec, 0x1d7f6, 0x1e140, 0x1e2f0, 0x1e950, 0x1fbf0]

/-- A Unicode decimal digit (category Nd): the digit characters `int()` and
    `float()` accept, and the ones `\d` matches in `_strptime`'s patterns. -/
def pyIsDecimalChar (c : Char) : Bool :=
  ndStarts.any (fun s => s ≤ c.toNat && c.toNat ≤ s + 9)

/-- The numeric value of a decimal digit: its offset inside its run. -/
def decimalVal (c : Char) : Nat :=
  ndStarts.foldl (fun a s => if s ≤ c.toNat ∧ c.toNat ≤ s + 9 then c.toNat - s else a) 0

/-- The `Numeric_Type=Digit` code points that are not decimal digits —
    accepted by `str.isdigit()` yet rejected by `int()`/`float()` with a
    ValueError (superscripts such as `²`, circled and parenthesized digits,
    Ethiopic, New Tai Lue, Kharoshthi, Rumi and Brahmi digits, ...) — as
    inclusive ranges from the CPython 3.11 / Unicode 14 tables. -/
def digitExtraRanges : List (Nat × Nat) :=
  [(0xb2, 0xb3), (0xb9, 0xb9), (0x1369, 0x1371), (0x19da, 0x19da), (0x2070, 0x2070),
   (0x2074, 0x2079), (0x2080, 0x2089), (0x2460, 0x2468), (0x2474, 0x247c), (0x2488, 0x2490),
   (0x24ea, 0x24ea), (0x24f5, 0x24fd), (0x24ff, 0x24ff), (0x2776, 0x277e), (0x2780, 0x2788),
   (0x278a, 0x2792), (0x10a40, 0x10a43), (0x10e60, 0x10e68), (0x11052, 0x1105a), (0x1f100, 0x1f10a)]

/-- Python `str.isdigit()` for one character: decimal digits plus the
    digit-typed extras. -/
def pyIsDigitChar (c : Char) : Bool :=
  pyIsDecimalChar c || digitExtraRanges.any (fun p => p.1 ≤ c.toNat && c.toNat ≤ p.2)

/-- Python `s.isdigit()`: non-empty and every character a digit. -/
def pyIsDigitStr (s : PyStr) : Bool := !s.isEmpty && s.all pyIsDigitChar

/-- Python `value.replace(".", "", 1)`. -/
def removeFirstDot : PyStr → PyStr
  | [] => []
  | c :: t => if c = '.' then t else c :: removeFirstDot t

/-- The base-10 value of a string of decimal digits. -/
def natOfDecDigits (s : PyStr) : Nat := s.foldl (fun a c => 10 * a + decimalVal c) 0

/-- `int(value)` for a string the isdigit test accepted with no dot present:
    it succeeds — with the exact arbitrary-precision value — iff every
    character is a decimal digit, and raises ValueError otherwise (for
    example on the superscript `²`). -/
def pyIntDigits? (v : PyStr) : Option Nat :=
  if v.all pyIsDecimalChar then some (natOfDecDigits v) else none

/-- `float(value)` for a string of digit characters containing a dot: it
    succeeds iff every character is a dot or a decimal digit and raises
    ValueError otherwise. The payload is modelled as the exact decimal
    rational; CPython rounds it to the nearest binary double (saturating to
    infinity for huge numerals) — no statement in this file uses the payload
    at a value where the rounded double differs from the exact rational. -/
def pyFloatDigits? (v : PyStr) : Option ℚ :=
  if v.all (fun c => decide (c = '.') || pyIsDecimalChar c) then
    let a := v.takeWhile (fun c => decide (c ≠ '.'))
    let b := (v.dropWhile (fun c => decide (c ≠ '.'))).tail
    some ((natOfDecDigits a : ℚ) + (natOfDecDigits b : ℚ) / ((10 : ℚ) ^ b.length))
  else none

/-- The sort key returned by the `sort_key` closure of `sort_list`:
    a number, a timestamp, or a plain string. -/
inductive SKey : Type
  | num (q : ℚ)
  | date (y m d hh mm ss : Nat)
  | str (s : PyStr)
deriving DecidableEq

def isLeapYear (y : Nat) : Bool := y % 4 = 0 && (y % 100 ≠ 0 || y % 400 = 0)

def daysInMonth (y m : Nat) : Nat :=
  if m = 2 then (if isLeapYear y then 29 else 28)
  else if m = 4 ∨ m = 6 ∨ m = 9 ∨ m = 11 then 30
  else 31

/-- The range checks the `datetime` constructor applies to the fields
    `strptime` matched: years 1..9999, month lengths, leap years. -/
def validDate (y m d : Nat) : Bool :=
  1 ≤ y && y ≤ 9999 && 1 ≤ m && m ≤ 12 && 1 ≤ d && d ≤ daysInMonth y m

/-- `%Y` of `_strptime`: exactly four `\d` digits. -/
def parseYear4 : PyStr → Option (Nat × PyStr)
  | y1 :: y2 :: y3 :: y4 :: rest =>
    if ([y1, y2, y3, y4] : PyStr).all pyIsDecimalChar then
      some (natOfDecDigits [y1, y2, y3, y4], rest)
    else none
  | _ => none

/-- `%m` of `_strptime`: the regex `1[0-2]|0[1-9]|[1-9]` over ASCII digits,
    alternatives tried left to right; the overall match is deterministic in
    the formats used here because after a one-digit month the next input
    character must be a non-digit separator. -/
def parseMonth : PyStr → Option (Nat × PyStr)
  | [] => none
  | c :: rest =>
    if c = '1' then
      match rest with
      | c2 :: rest2 =>
        if '0' ≤ c2 ∧ c2 ≤ '2' then some (10 + (c2.toNat - 48), rest2) else some (1, rest)
      | [] => some (1, [])
    else if c = '0' then
      match rest with
      | c2 :: rest2 => if '1' ≤ c2 ∧ c2 ≤ '9' then some (c2.toNat - 48, rest2) else none
      | [] => none
    else if '2' ≤ c ∧ c ≤ '9' then some (c.toNat - 48, rest)
    else none

/-- `%d` of `_strptime`: `3[01]|[12]\d|0[1-9]|[1-9]| [1-9]` — note `\d`
    matches any Unicode decimal digit while the explicit digits are ASCII. -/
def parseDay : PyStr → Option (Nat × PyStr)
  | [] => none
  | c :: rest =>
    if c = '3' then
      match rest with
      | c2 :: rest2 =>
        if c2 = '0' ∨ c2 = '1' then some (30 + (c2.toNat - 48), rest2) else some (3, rest)
      | [] => some (3, [])
    else if c = '1' ∨ c = '2' then
      match rest with
      | c2 :: rest2 =>
        if pyIsDecimalChar c2 then some (10 * (c.toNat - 48) + decimalVal c2, rest2)
        else some (c.toNat - 48, rest)
      | [] => some (c.toNat - 48, [])
    else if c = '0' ∨ c = ' ' then
      match rest with
      | c2 :: rest2 => if '1' ≤ c2 ∧ c2 ≤ '9' then some (c2.toNat - 48, rest2) else none
      | [] => none
    else if '4' ≤ c ∧ c ≤ '9' then some (c.toNat - 48, rest)
    else none

/-- `%H` of `_strptime`: `2[0-3]|[0-1]\d|\d`. -/
def parseHour : PyStr → Option (Nat × PyStr)
  | [] => none
  | c :: rest =>
    if c = '2' then
      match rest with
      | c2 :: rest2 =>
        if '0' ≤ c2 ∧ c2 ≤ '3' then some (20 + (c2.toNat - 48), rest2) else some (2, rest)
      | [] => some (2, [])
    else if c = '0' ∨ c = '1' then
      match rest with
      | c2 :: rest2 =>
        if pyIsDecimalChar c2 then some (10 * (c.toNat - 48) + decimalVal c2, rest2)
        else some (c.toNat - 48, rest)
      | [] => some (c.toNat - 48, [])
    else if pyIsDecimalChar c then some (decimalVal c, rest)
    else none

/-- `%M` of `_strptime`: `[0-5]\d|\d`. -/
def parseMinute : PyStr → Option (Nat × PyStr)
  | [] => none
  | c :: rest =>
    if '0' ≤ c ∧ c ≤ '5' then
      match rest with
      | c2 :: rest2 =>
        if pyIsDecimalChar c2 then some (10 * (c.toNat - 48) + decimalVal c2, rest2)
        else some (c.toNat - 48, rest)
      | [] => some (c.toNat - 48, [])
    else if pyIsDecimalChar c then some (decimalVal c, rest)
    else none

/-- `%S` of `_strptime`: `6[0-1]|[0-5]\d|\d` — 60 and 61 match here but the
    `datetime` constructor then rejects them. -/
def parseSecond : PyStr → Option (Nat × PyStr)
  | [] => none
  | c :: rest =>
    if c = '6' then
      match rest with
      | c2 :: rest2 =>
        if c2 = '0' ∨ c2 = '1' then some (60 + (c2.toNat - 48), rest2) else some (6, rest)
      | [] => some (6, [])
    else if '0' ≤ c ∧ c ≤ '5' then
      match rest with
      | c2 :: rest2 =>
        if pyIsDecimalChar c2 then some (10 * (c.toNat - 48) + decimalVal c2, rest2)
        else some (c.toNat - 48, rest)
      | [] => some (c.toNat - 48, [])
    else if pyIsDecimalChar c then some (decimalVal c, rest)
    else none

/-- `datetime.strptime(v, "%Y<sep>%m<sep>%d")`: the `_strptime` field
    patterns above, a literal separator, full consumption of the input
    ("unconverted data remains" otherwise), then the `datetime`
    constructor's range validation — both failures raise ValueError. -/
def parseYmd (sep : Char) (v : PyStr) : Option (Nat × Nat × Nat) :=
  match parseYear4 v with
  | none => none
  | some (y, r1) =>
    match r1 with
    | [] => none
    | c1 :: r2 =>
      if c1 = sep then
        match parseMonth r2 with
        | none => none
        | some (m, r3) =>
          match r3 with
          | [] => none
          | c2 :: r4 =>
            if c2 = sep then
              match parseDay r4 with
              | none => none
              | some (d, r5) =>
                if r5 = [] ∧ validDate y m d then some (y, m, d) else none
            else none
      else none

/-- `datetime.strptime(v, "%Y-%m-%d %H:%M:%S")`: as above; the literal space
    in the format becomes `\s+` in `_strptime`, matching one or more
    whitespace characters. Hours stay below 24 and minutes below 60 by the
    field patterns; the constructor additionally rejects seconds above 59. -/
def parseYmdHms (v : PyStr) : Option (Nat × Nat × Nat × Nat × Nat × Nat) :=
  match parseYear4 v with
  | none => none
  | some (y, r1) =>
    match r1 with
    | [] => none
    | c1 :: r2 =>
      if c1 = '-' then
        match parseMonth r2 with
        | none => none
        | some (m, r3) =>
          match r3 with
          | [] => none
          | c2 :: r4 =>
            if c2 = '-' then
              match parseDay r4 with
              | none => none
              | some (d, r5) =>
                let sp := r5.takeWhile pyIsSpaceChar
                let r6 := r5.drop sp.length
                if sp = [] then none
                else
                  match parseHour r6 with
                  | none => none
                  | some (hh, r7) =>
                    match r7 with
                    | [] => none
                    | c3 :: r8 =>
                      if c3 = ':' then
                        match parseMinute r8 with
                        | none => none
                        | some (mi, r9) =>
                          match r9 with
                          | [] => none
                          | c4 :: r10 =>
                            if c4 = ':' then
                              match parseSecond r10 with
                              | none => none
                              | some (ss, r11) =>
                                if r11 = [] ∧ validDate y m d ∧ ss ≤ 59 then
                                  some (y, m, d, hh, mi, ss)
                                else none
                            else none
                      else none
            else none
      else none

/-- The three date formats tried in order by rule 4 of `sort_key`. -/
def parseDateAny (v : PyStr) : Option (Nat × Nat × Nat × Nat × Nat × Nat) :=
  match parseYmd '-' v with
  | some (y, m, d) => some (y, m, d, 0, 0, 0)
  | none =>
    match parseYmd '/' v with
    | some (y, m, d) => some (y, m, d, 0, 0, 0)
    | none => parseYmdHms v

/-- Rules 4 and 5 of the `sort_key` closure: try the date formats in order,
    else compare as the raw string. -/
def sortKeyRest (v : PyStr) : SKey :=
  match parseDateAny v with
  | some (y, m, d, hh, mm, ss) => SKey.date y m d hh mm ss
  | none => SKey.str v

/-- The `sort_key` closure of `sort_list` at string-typed field values (the
    records of this data model carry only strings, so rules 1 and 2 for
    already-numeric and already-datetime values cannot fire): rule 3 tests
    `value.replace(".", "", 1).isdigit()` and then evaluates
    `float(value) if "." in value else int(value)` inside try/except
    ValueError — when the conversion raises (digit-typed but non-decimal
    characters such as `²`), the value falls through to rules 4 and 5. -/
def sortKeyOfValue (v : PyStr) : SKey :=
  if pyIsDigitStr (removeFirstDot v) then
    match (if decide ('.' ∈ v) then pyFloatDigits? v
           else (pyIntDigits? v).map (fun n => (n : ℚ))) with
    | some q => SKey.num q
    | none => sortKeyRest v
  else sortKeyRest v

/-- The sort key of one record for the field `key`: `item.get(key, "")`. -/
def sortKeyOf (item : Rcd) (key : PyStr) : SKey := sortKeyOfValue (pyGetD item key [])

/-- Modelled from the spec: the sort-key rule-3 pattern
    `[0-9]+(\.[0-9]+)?`, anchored at both ends. -/
def matchesSpecNumPattern (v : PyStr) : Bool :=
  let a := v.takeWhile isAsciiDigit
  let r := v.drop a.length
  !a.isEmpty &&
    (r.isEmpty ||
      (match r with
       | '.' :: b => !b.isEmpty && b.all isAsciiDigit
       | _ => false))

/-- Keep the first occurrence of every element, in order. -/
def firstDedup : List PyStr → List PyStr
  | [] => []
  | a :: t => a :: firstDedup (t.filter (fun x => decide (x ≠ a)))
termination_by l => l.length
decreasing_by
  simp only [List.length_cons]
  exact Nat.lt_succ_of_le (List.length_filter_le _ _)

/-- The last value stored under `k` in a pair sequence, if any. -/
def lastVal? {β : Type} (ps : List (PyStr × β)) (k : PyStr) : Option β :=
  (ps.reverse.find? (fun p => decide (p.1 = k))).map Prod.snd

/-- The last value stored under `k` in a pair sequence (`dflt` if absent). -/
def lastVal {β : Type} (ps : List (PyStr × β)) (dflt : β) (k : PyStr) : β :=
  (lastVal? ps k).getD dflt

/-- The last record of `l` whose `"id"` field equals `k` (`[]` if none). -/
def lastRecWith (l : List Rcd) (k : PyStr) : Rcd :=
  (l.reverse.find? (fun r => decide (pyGetD r idKey [] = k))).getD []

/-- The `"id"` value of a record, read like `item["id"]` under the guarantee
    that the key is present. -/
def idOf (r : Rcd) : PyStr := pyGetD r idKey []

/- ===== Dict lemmas: CPython dict construction as first-occurrence key order
   with last-write values. ===== -/

theorem firstDedup_sub : ∀ (l : List PyStr), ∀ x ∈ firstDedup l, x ∈ l := by
  intro l
  induction l using firstDedup.induct with
  | case1 => intro x hx; simp [firstDedup] at hx
  | case2 a t ih =>
    intro x hx
    rw [firstDedup] at hx
    rcases List.mem_cons.mp hx with rfl | hx
    · exact List.mem_cons_self _ _
    · exact List.mem_cons_of_mem _ (List.mem_filter.mp (ih x hx)).1

theorem mem_firstDedup_of_mem : ∀ (l : List PyStr), ∀ x ∈ l, x ∈ firstDedup l := by
  intro l
  induction l using firstDedup.induct with
  | case1 => intro x hx; simp at hx
  | case2 a t ih =>
    intro x hx
    rw [firstDedup]
    rcases List.mem_cons.mp hx with rfl | hx
    · exact List.mem_cons_self _ _
    · by_cases hxa : x = a
      · exact hxa ▸ List.mem_cons_self _ _
      · exact List.mem_cons_of_mem _ (ih x (List.mem_filter.mpr ⟨hx, by simp [hxa]⟩))

theorem mem_firstDedup {x : PyStr} {l : List PyStr} : x ∈ firstDedup l ↔ x ∈ l :=
  ⟨firstDedup_sub l x, mem_firstDedup_of_mem l x⟩

theorem firstDedup_filter (p : PyStr → Bool) :
    ∀ (l : List PyStr), firstDedup (l.filter p) = (firstDedup l).filter p := by
  intro l
  induction l using firstDedup.induct with
  | case1 => simp [firstDedup]
  | case2 a t ih =>
    by_cases hp : p a
    · have h1 : (a :: t).filter p = a :: t.filter p := by simp [hp]
      rw [h1, firstDedup, firstDedup, List.filter_comm, ih]
      simp [hp]
    · have h1 : (a :: t).filter p = t.filter p := by simp [hp]
      have h2 : (t.filter p).filter (fun x => decide (x ≠ a)) = t.filter p := by
        rw [List.filter_eq_self]
        intro x hx
        rcases List.mem_filter.mp hx with ⟨_, hpx⟩
        simp only [decide_eq_true_eq]
        intro hxa
        rw [hxa] at hpx
        exact hp hpx
      calc firstDedup ((a :: t).filter p)
          = firstDedup (t.filter p) := by rw [h1]
        _ = firstDedup ((t.filter p).filter (fun x => decide (x ≠ a))) := by rw [h2]
        _ = firstDedup ((t.filter (fun x => decide (x ≠ a))).filter p) := by
              rw [List.filter_comm]
        _ = (firstDedup (t.filter (fun x => decide (x ≠ a)))).filter p := ih
        _ = (a :: firstDedup (t.filter (fun x => decide (x ≠ a)))).filter p := by
              simp [hp]
        _ = (firstDedup (a :: t)).filter p := by rw [firstDedup]

theorem firstDedup_snoc (a : PyStr) :
    ∀ (l : List PyStr),
      firstDedup (l ++ [a]) =
        if a ∈ l then firstDedup l else firstDedup l ++ [a] := by
  intro l
  induction l using firstDedup.induct with
  | case1 => simp [firstDedup]
  | case2 b t ih =>
    by_cases hab : a = b
    · subst hab
      have h1 : (t ++ [a]).filter (fun x => decide (x ≠ a)) = t.filter (fun x => decide (x ≠ a)) := by
        simp [List.filter_append]
      simp only [List.cons_append, firstDedup, h1, List.mem_cons, true_or, if_pos]
    · have h1 : (t ++ [a]).filter (fun x => decide (x ≠ b)) =
          t.filter (fun x => decide (x ≠ b)) ++ [a] := by
        simp [List.filter_append, hab]
      have hmem : a ∈ t.filter (fun x => decide (x ≠ b)) ↔ a ∈ t := by
        simp [List.mem_filter, hab]
      rw [List.cons_append, firstDedup, h1, ih, firstDedup]
      by_cases hat : a ∈ t
      · simp [hmem, hat, hab]
      · simp [hmem, hat, hab]

theorem lastValq_snoc {β : Type} (ps : List (PyStr × β)) (k k' : PyStr) (v : β) :
    lastVal? (ps ++ [(k, v)]) k' = if k = k' then some v else lastVal? ps k' := by
  simp only [lastVal?, List.reverse_append, List.reverse_cons, List.reverse_nil,
    List.nil_append, List.singleton_append, List.find?]
  by_cases hk : k = k'
  · simp [hk]
  · simp [hk]

theorem lastVal_snoc {β : Type} (ps : List (PyStr × β)) (dflt : β) (k k' : PyStr) (v : β) :
    lastVal (ps ++ [(k, v)]) dflt k' = if k = k' then v else lastVal ps dflt k' := by
  rw [lastVal, lastValq_snoc]
  by_cases h : k = k' <;> simp [h, lastVal]

theorem buildDict_snoc {β : Type} (ps : List (PyStr × β)) (k : PyStr) (v : β) :
    buildDict (ps ++ [(k, v)]) = dinsert (buildDict ps) k v := by
  simp [buildDict, List.foldl_append]

theorem dict_any_iff {β : Type} (d : List (PyStr × β)) (k : PyStr) :
    (d.any (fun p => decide (p.1 = k)) = true) ↔ k ∈ d.map Prod.fst := by
  constructor
  · intro h
    rcases List.any_eq_true.mp h with ⟨p, hp, hpk⟩
    exact List.mem_map.mpr ⟨p, hp, of_decide_eq_true hpk⟩
  · intro h
    rcases List.mem_map.mp h with ⟨p, hp, hpk⟩
    exact List.any_eq_true.mpr ⟨p, hp, by simp [hpk]⟩

theorem buildDict_eq {β : Type} (dflt : β) :
    ∀ (ps : List (PyStr × β)),
      buildDict ps =
        (firstDedup (ps.map Prod.fst)).map (fun k => (k, lastVal ps dflt k)) := by
  intro ps
  induction ps using List.reverseRecOn with
  | nil => simp [buildDict, firstDedup]
  | append_singleton ps p ih =>
    obtain ⟨k, v⟩ := p
    rw [buildDict_snoc, ih, List.map_append]
    simp only [List.map_cons, List.map_nil]
    rw [firstDedup_snoc]
    by_cases hk : k ∈ ps.map Prod.fst
    · have hany : ((firstDedup (ps.map Prod.fst)).map
          (fun k' => (k', lastVal ps dflt k'))).any (fun p => decide (p.1 = k)) = true := by
        rw [dict_any_iff]
        simp only [List.map_map]
        simpa [Function.comp] using mem_firstDedup.mpr hk
      rw [dinsert, if_pos hany, if_pos hk, List.map_map]
      apply List.map_congr_left
      intro k' _
      simp only [Function.comp]
      by_cases hkk : k' = k
      · subst hkk
        simp [lastVal_snoc]
      · simp [lastVal_snoc, hkk, Ne.symm hkk]
    · have hany : ¬ ((firstDedup (ps.map Prod.fst)).map
          (fun k' => (k', lastVal ps dflt k'))).any (fun p => decide (p.1 = k)) = true := by
        rw [dict_any_iff]
        simp only [List.map_map]
        intro hcon
        exact hk (mem_firstDedup.mp (by simpa [Function.comp] using hcon))
      rw [dinsert, if_neg hany, if_neg hk, List.map_append]
      congr 1
      · apply List.map_congr_left
        intro k' hk'
        have : k ≠ k' := fun h => hk (h ▸ mem_firstDedup.mp hk')
        simp [lastVal_snoc, this]
      · simp [lastVal_snoc]

theorem keys_buildDict {β : Type} (dflt : β) (ps : List (PyStr × β)) :
    (buildDict ps).map Prod.fst = firstDedup (ps.map Prod.fst) := by
  rw [buildDict_eq dflt, List.map_map]
  have h : (Prod.fst ∘ fun k => (k, lastVal ps dflt k)) = id := rfl
  rw [h, List.map_id]

theorem findq_keyed {β : Type} (f : PyStr → β) (k : PyStr) :
    ∀ (ks : List PyStr),
      ((ks.map (fun k' => (k', f k'))).find? (fun p => decide (p.1 = k))).map Prod.snd =
        if k ∈ ks then some (f k) else none := by
  intro ks
  induction ks with
  | nil => simp
  | cons a t ih =>
    by_cases ha : a = k
    · subst ha
      rw [List.map_cons, List.find?_cons_of_pos _ (by simp)]
      simp
    · rw [List.map_cons, List.find?_cons_of_neg _ (by simp [ha]), ih]
      have hka : ¬ k = a := fun h => ha h.symm
      by_cases hk : k ∈ t <;> simp [hk, List.mem_cons, hka]

theorem lastValq_eq_none {β : Type} (ps : List (PyStr × β)) (k : PyStr)
    (hk : k ∉ ps.map Prod.fst) : lastVal? ps k = none := by
  unfold lastVal?
  rw [List.find?_eq_none.mpr]
  · rfl
  · intro p hp
    simp only [decide_eq_true_eq]
    intro h
    exact hk (List.mem_map.mpr ⟨p, List.mem_reverse.mp hp, h⟩)

theorem lastValq_eq_some {β : Type} (dflt : β) (ps : List (PyStr × β)) (k : PyStr)
    (hk : k ∈ ps.map Prod.fst) : lastVal? ps k = some (lastVal ps dflt k) := by
  have hsome : (List.find? (fun p => decide (p.1 = k)) ps.reverse).isSome := by
    rw [List.find?_isSome]
    rcases List.mem_map.mp hk with ⟨p, hp, hpk⟩
    exact ⟨p, List.mem_reverse.mpr hp, by simp [hpk]⟩
  rcases Option.isSome_iff_exists.mp hsome with ⟨q, hq⟩
  simp [lastVal, lastVal?, hq]

theorem lastValq_mem {β : Type} (ps : List (PyStr × β)) (k : PyStr) (v : β)
    (h : lastVal? ps k = some v) : ∃ q ∈ ps, q.1 = k ∧ q.2 = v := by
  unfold lastVal? at h
  rcases Option.map_eq_some'.mp h with ⟨q, hq, hqv⟩
  refine ⟨q, List.mem_reverse.mp (List.mem_of_find?_eq_some hq), ?_, hqv⟩
  have := List.find?_some hq
  simpa using this

theorem dictFind_buildDict {β : Type} (dflt : β) (ps : List (PyStr × β)) (k : PyStr) :
    ((buildDict ps).find? (fun p => decide (p.1 = k))).map Prod.snd = lastVal? ps k := by
  rw [buildDict_eq dflt, findq_keyed]
  by_cases hk : k ∈ ps.map Prod.fst
  · rw [if_pos (mem_firstDedup.mpr hk), lastValq_eq_some dflt ps k hk]
  · rw [if_neg (fun h => hk (mem_firstDedup.mp h)), lastValq_eq_none ps k hk]

theorem pyGet_buildDict (ps : List (PyStr × PyStr)) (k : PyStr) :
    pyGet (buildDict ps) k = lastVal? ps k :=
  dictFind_buildDict [] ps k

theorem mem_buildDict_val (ps : List (PyStr × PyStr)) (p : PyStr × PyStr)
    (hp : p ∈ buildDict ps) : ∃ q ∈ ps, q.2 = p.2 := by
  rw [buildDict_eq ([] : PyStr)] at hp
  rcases List.mem_map.mp hp with ⟨k, hk, hkp⟩
  have hmem : k ∈ ps.map Prod.fst := mem_firstDedup.mp hk
  rcases lastValq_mem ps k (lastVal ps [] k) (lastValq_eq_some [] ps k hmem) with
    ⟨q, hq, _, hqv⟩
  exact ⟨q, hq, by rw [hqv, ← hkp]⟩

/- ===== Merge lemmas. ===== -/

theorem firstDedup_append :
    ∀ (l1 l2 : List PyStr),
      firstDedup (l1 ++ l2) =
        firstDedup l1 ++ (firstDedup l2).filter (fun x => decide (x ∉ l1)) := by
  intro l1
  induction l1 using firstDedup.induct with
  | case1 =>
    intro l2
    simp [firstDedup]
  | case2 a t ih =>
    intro l2
    rw [List.cons_append, firstDedup, List.filter_append, ih, firstDedup, List.cons_append]
    congr 1
    congr 1
    rw [firstDedup_filter, List.filter_filter]
    apply List.filter_congr
    intro x _
    by_cases hxa : x = a
    · subst hxa
      simp [List.mem_cons]
    · by_cases hxt : x ∈ t <;>
        simp [List.mem_filter, List.mem_cons, hxa, hxt]

theorem lastRecWith_append (base upd : List Rcd) (k : PyStr) :
    lastRecWith (base ++ upd) k =
      if k ∈ upd.map idOf then lastRecWith upd k else lastRecWith base k := by
  unfold lastRecWith
  rw [List.reverse_append, List.find?_append]
  by_cases hk : k ∈ upd.map idOf
  · rcases List.mem_map.mp hk with ⟨r, hr, hrk⟩
    have hsome : (upd.reverse.find? (fun r => decide (pyGetD r idKey [] = k))).isSome := by
      rw [List.find?_isSome]
      exact ⟨r, List.mem_reverse.mpr hr, by simp [idOf] at hrk; simp [hrk]⟩
    rcases Option.isSome_iff_exists.mp hsome with ⟨q, hq⟩
    simp [hq, hk]
  · have hnone : upd.reverse.find? (fun r => decide (pyGetD r idKey [] = k)) = none := by
      rw [List.find?_eq_none]
      intro r hr
      simp only [decide_eq_true_eq]
      intro hrk
      exact hk (List.mem_map.mpr ⟨r, List.mem_reverse.mp hr, by simp [idOf, hrk]⟩)
    simp [hnone, hk]

theorem lastVal_pairs (l : List Rcd) (k : PyStr) :
    lastVal (l.map (fun r => (idOf r, r))) [] k = lastRecWith l k := by
  unfold lastVal lastVal? lastRecWith
  rw [← List.map_reverse, List.find?_map]
  have hpred : ((fun p : PyStr × Rcd => decide (p.1 = k)) ∘ fun r => (idOf r, r)) =
      (fun r => decide (pyGetD r idKey [] = k)) := by
    funext r
    simp [Function.comp, idOf]
  rw [hpred]
  cases h : l.reverse.find? (fun r => decide (pyGetD r idKey [] = k)) <;> simp [h]

theorem indexById_some :
    ∀ (l : List Rcd) (acc : List (PyStr × Rcd)),
      (∀ r ∈ l, pyGet r idKey ≠ none) →
      indexById acc l = some (l.foldl (fun d item => dinsert d (idOf item) item) acc) := by
  intro l
  induction l with
  | nil =>
    intro acc _
    simp [indexById]
  | cons item t ih =>
    intro acc h
    have hid := h item (List.mem_cons_self _ _)
    rcases Option.ne_none_iff_exists'.mp hid with ⟨k, hk⟩
    have hidk : idOf item = k := by simp [idOf, pyGetD, hk]
    simp only [indexById, hk, List.foldl_cons]
    rw [← hidk]
    exact ih (dinsert acc (idOf item) item) (fun r hr => h r (List.mem_cons_of_mem _ hr))

theorem indexById_none :
    ∀ (l : List Rcd) (acc : List (PyStr × Rcd)),
      (indexById acc l = none ↔ ∃ r ∈ l, pyGet r idKey = none) := by
  intro l
  induction l with
  | nil =>
    intro acc
    simp [indexById]
  | cons item t ih =>
    intro acc
    cases hk : pyGet item idKey with
    | none =>
      simp only [indexById, hk]
      constructor
      · intro _
        exact ⟨item, List.mem_cons_self _ _, hk⟩
      · intro _
        trivial
    | some k =>
      simp only [indexById, hk]
      rw [ih]
      constructor
      · rintro ⟨r, hr, hrn⟩
        exact ⟨r, List.mem_cons_of_mem _ hr, hrn⟩
      · rintro ⟨r, hr, hrn⟩
        rcases List.mem_cons.mp hr with rfl | hr
        · rw [hk] at hrn; cases hrn
        · exact ⟨r, hr, hrn⟩

theorem mergeLists_eq_buildDict (base update : List Rcd)
    (hb : ∀ r ∈ base, pyGet r idKey ≠ none)
    (hu : ∀ r ∈ update, pyGet r idKey ≠ none) :
    mergeLists base update =
      some ((buildDict ((base ++ update).map (fun r => (idOf r, r)))).map Prod.snd) := by
  have e1 := indexById_some base [] hb
  have e2 := indexById_some update (base.foldl (fun d item => dinsert d (idOf item) item) []) hu
  simp only [mergeLists, e1, e2]
  have h1 : buildDict ((base ++ update).map (fun r => (idOf r, r))) =
      (base ++ update).foldl (fun d item => dinsert d (idOf item) item) [] := by
    rw [buildDict, List.foldl_map]
  rw [h1, List.foldl_append]

/-- Claim C2: merging a base record list with an update record list (all
    records carrying the `"id"` field) yields exactly one record per distinct
    identifier: every distinct base identifier in base order — replaced by the
    last update record with that identifier when the update list touches it,
    otherwise the (last) base record with that identifier unchanged — followed
    by the records whose identifiers are new to the base list, appended in
    update order. -/
theorem merge_lists_spec (base update : List Rcd)
    (hb : ∀ r ∈ base, pyGet r idKey ≠ none)
    (hu : ∀ r ∈ update, pyGet r idKey ≠ none) :
    mergeLists base update = some (
      (firstDedup (base.map idOf)).map (fun k =>
        if k ∈ update.map idOf then lastRecWith update k else lastRecWith base k) ++
      ((firstDedup (update.map idOf)).filter (fun k => decide (k ∉ base.map idOf))).map
        (fun k => lastRecWith update k)) := by
  rw [mergeLists_eq_buildDict base update hb hu, buildDict_eq ([] : Rcd), List.map_map]
  have hfst : ((base ++ update).map (fun r => (idOf r, r))).map Prod.fst =
      base.map idOf ++ update.map idOf := by
    rw [List.map_map, ← List.map_append]
    rfl
  rw [hfst, firstDedup_append, List.map_append]
  congr 2
  · apply List.map_congr_left
    intro k _
    show lastVal ((base ++ update).map (fun r => (idOf r, r))) [] k = _
    rw [lastVal_pairs, lastRecWith_append]
  · apply List.map_congr_left
    intro k hk
    show lastVal ((base ++ update).map (fun r => (idOf r, r))) [] k = _
    rw [lastVal_pairs, lastRecWith_append, if_pos]
    rcases List.mem_filter.mp hk with ⟨hk1, _⟩
    exact firstDedup_sub _ _ hk1

/-- Witness for C2 at the merge example of the spec:
    base `[{id:"1",v:"a"},{id:"2",v:"b"}]`, update `[{id:"2",v:"c"},{id:"3",v:"d"}]`. -/
theorem merge_lists_spec_witness :
    mergeLists
      [[(idKey, ['1']), (['v'], ['a'])], [(idKey, ['2']), (['v'], ['b'])]]
      [[(idKey, ['2']), (['v'], ['c'])], [(idKey, ['3']), (['v'], ['d'])]] = some (
      (firstDedup ([[(idKey, ['1']), (['v'], ['a'])], [(idKey, ['2']), (['v'], ['b'])]].map idOf)).map
        (fun k =>
          if k ∈ [[(idKey, ['2']), (['v'], ['c'])], [(idKey, ['3']), (['v'], ['d'])]].map idOf then
            lastRecWith [[(idKey, ['2']), (['v'], ['c'])], [(idKey, ['3']), (['v'], ['d'])]] k
          else lastRecWith [[(idKey, ['1']), (['v'], ['a'])], [(idKey, ['2']), (['v'], ['b'])]] k) ++
      ((firstDedup ([[(idKey, ['2']), (['v'], ['c'])], [(idKey, ['3']), (['v'], ['d'])]].map idOf)).filter
        (fun k => decide (k ∉ [[(idKey, ['1']), (['v'], ['a'])], [(idKey, ['2']), (['v'], ['b'])]].map idOf))).map
        (fun k => lastRecWith [[(idKey, ['2']), (['v'], ['c'])], [(idKey, ['3']), (['v'], ['d'])]] k)) :=
  merge_lists_spec _ _ (by decide) (by decide)

/-- Claim C5 counterexample: a base record lacking the `"id"` field makes
    `merge_lists` raise a `KeyError` (modelled as `none`) instead of silently
    dropping the record and returning a merged list. -/
theorem merge_missing_id_counterexample :
    mergeLists [[(['v'], ['a'])]] [] = none := by decide

/-- Claim C5 (amended): `merge_lists` raises a `KeyError` exactly when some
    participating record (base or update) lacks the `"id"` field; it never
    silently drops such a record. -/
theorem merge_missing_id_spec (base update : List Rcd) :
    mergeLists base update = none ↔ ∃ r ∈ base ++ update, pyGet r idKey = none := by
  cases hb : indexById [] base with
  | none =>
    simp only [mergeLists, hb]
    constructor
    · intro _
      rcases (indexById_none base []).mp hb with ⟨r, hr, hrn⟩
      exact ⟨r, List.mem_append_left _ hr, hrn⟩
    · intro _
      trivial
  | some m1 =>
    cases hu : indexById m1 update with
    | none =>
      simp only [mergeLists, hb, hu]
      constructor
      · intro _
        rcases (indexById_none update m1).mp hu with ⟨r, hr, hrn⟩
        exact ⟨r, List.mem_append_right _ hr, hrn⟩
      · intro _
        trivial
    | some m2 =>
      simp only [mergeLists, hb, hu]
      constructor
      · intro h
        cases h
      · rintro ⟨r, hr, hrn⟩
        rcases List.mem_append.mp hr with hr | hr
        · have hcon : indexById [] base = none := (indexById_none base []).mpr ⟨r, hr, hrn⟩
          rw [hb] at hcon
          cases hcon
        · have hcon : indexById m1 update = none := (indexById_none update m1).mpr ⟨r, hr, hrn⟩
          rw [hu] at hcon
          cases hcon

/- ===== Analyzer decomposition helpers. ===== -/

theorem normalizeRows_eq (cols : Nat) :
    ∀ (rows : List (List PyStr)),
      normalizeRows cols rows = (rows.filter (fun r => !isBlankRow r)).map (truncPad cols) := by
  intro rows
  induction rows with
  | nil => rfl
  | cons r t ih =>
    by_cases hb : isBlankRow r
    · simp [normalizeRows, hb, ih]
    · simp [normalizeRows, hb, ih]

theorem firstDedup_of_nodup :
    ∀ (l : List PyStr), l.Nodup → firstDedup l = l := by
  intro l
  induction l using firstDedup.induct with
  | case1 => intro _; rw [firstDedup]
  | case2 a t ih =>
    intro hnd
    rcases List.nodup_cons.mp hnd with ⟨ha, ht⟩
    have hf : t.filter (fun x => decide (x ≠ a)) = t := by
      rw [List.filter_eq_self]
      intro x hx
      simp only [decide_eq_true_eq]
      intro hxa
      exact ha (hxa ▸ hx)
    rw [firstDedup, ih (hf.symm ▸ ht), hf]

theorem recordOf_keys (headers : List PyStr) (r : List PyStr) :
    (recordOf headers r).map Prod.fst = firstDedup headers := by
  rw [recordOf, keys_buildDict ([] : PyStr), List.map_map]
  have h : (Prod.fst ∘ fun ih : Nat × PyStr => (ih.2, r.getD ih.1 [])) =
      (Prod.snd : Nat × PyStr → PyStr) := rfl
  rw [h, List.enum_map_snd]

/- ===== Sort-key claims. ===== -/

theorem removeFirstDot_of_not_mem :
    ∀ (v : PyStr), '.' ∉ v → removeFirstDot v = v := by
  intro v
  induction v with
  | nil => intro _; rfl
  | cons c t ih =>
    intro h
    rw [removeFirstDot, if_neg (fun hc => h (List.mem_cons.mpr (Or.inl hc.symm))),
      ih (fun ht => h (List.mem_cons_of_mem _ ht))]

theorem pyIsDigitStr_parts (s : PyStr) (h : pyIsDigitStr s = true) :
    s ≠ [] ∧ s.all pyIsDigitChar = true := by
  rw [pyIsDigitStr] at h
  simp only [Bool.and_eq_true] at h
  refine ⟨?_, h.2⟩
  intro hcon
  rw [hcon] at h
  exact absurd h.1 (by decide)

theorem pyIsDigitStr_intro (s : PyStr) (hne : s ≠ []) (hall : s.all pyIsDigitChar = true) :
    pyIsDigitStr s = true := by
  rw [pyIsDigitStr]
  simp only [Bool.and_eq_true]
  refine ⟨?_, hall⟩
  cases s with
  | nil => exact absurd rfl hne
  | cons a t => rfl

theorem digit_ne_dot (c : Char) (h : pyIsDigitChar c = true) : c ≠ '.' := by
  intro hc
  rw [hc] at h
  exact absurd h (by decide)

theorem decimal_is_digit (c : Char) (h : pyIsDecimalChar c = true) :
    pyIsDigitChar c = true := by
  rw [pyIsDigitChar, h, Bool.true_or]

theorem all_congr_mem (p q : Char → Bool) :
    ∀ (l : PyStr), (∀ x ∈ l, p x = q x) → l.all p = l.all q := by
  intro l
  induction l with
  | nil => intro _; rfl
  | cons a t ih =>
    intro h
    rw [List.all_cons, List.all_cons, h a (List.mem_cons_self _ _),
      ih (fun x hx => h x (List.mem_cons_of_mem _ hx))]

/-- When the replaced string passes isdigit, the `float` acceptance test on
    the original string coincides with all-decimal on the replaced string. -/
theorem allDotDec_of_digit :
    ∀ (v : PyStr), (removeFirstDot v).all pyIsDigitChar = true →
      v.all (fun c => decide (c = '.') || pyIsDecimalChar c) =
        (removeFirstDot v).all pyIsDecimalChar := by
  intro v
  induction v with
  | nil => intro _; rfl
  | cons c t ih =>
    intro hd
    by_cases hc : c = '.'
    · subst hc
      have hrfd : removeFirstDot ('.' :: t) = t := by rw [removeFirstDot, if_pos rfl]
      rw [hrfd] at hd ⊢
      simp only [List.all_cons]
      have h1 : (decide True || pyIsDecimalChar '.') = true := by decide
      rw [h1, Bool.true_and]
      apply all_congr_mem
      intro x hx
      have hxd : pyIsDigitChar x = true := List.all_eq_true.mp hd x hx
      simp [digit_ne_dot x hxd]
    · have hrfd : removeFirstDot (c :: t) = c :: removeFirstDot t := by
        rw [removeFirstDot, if_neg hc]
      rw [hrfd] at hd ⊢
      simp only [List.all_cons] at hd ⊢
      simp only [Bool.and_eq_true] at hd
      have h1 : (decide (c = '.') || pyIsDecimalChar c) = pyIsDecimalChar c := by
        simp [hc]
      rw [h1, ih hd.2]

/-- The conversion of rule 3 raises ValueError exactly on the digit-typed
    strings that are not all decimal. -/
theorem rule3_parse_none (v : PyStr)
    (hd : pyIsDigitStr (removeFirstDot v) = true)
    (hdec : (removeFirstDot v).all pyIsDecimalChar = false) :
    (if decide ('.' ∈ v) then pyFloatDigits? v
     else (pyIntDigits? v).map (fun n => (n : ℚ))) = none := by
  have hall : (removeFirstDot v).all pyIsDigitChar = true :=
    (pyIsDigitStr_parts _ hd).2
  by_cases hdot : '.' ∈ v
  · have hcond : v.all (fun c => decide (c = '.') || pyIsDecimalChar c) = false := by
      rw [allDotDec_of_digit v hall, hdec]
    rw [if_pos (decide_eq_true hdot), pyFloatDigits?, if_neg (by simp [hcond])]
  · have hvv : removeFirstDot v = v := removeFirstDot_of_not_mem v hdot
    have hvf : v.all pyIsDecimalChar = false := hvv ▸ hdec
    rw [if_neg (by simpa using hdot), pyIntDigits?, if_neg (by simp [hvf])]
    rfl

theorem sortKeyRest_ne_num (v : PyStr) (q : ℚ) : sortKeyRest v ≠ SKey.num q := by
  intro h
  rw [sortKeyRest] at h
  rcases hpd : parseDateAny v with _ | ⟨y, m, d, hh, mm, ss⟩ <;>
    rw [hpd] at h <;> cases h

/-- Claim C7 counterexample: the string `".5"` is parsed to the numeric sort
    key `1/2` by rule 3 (`float(".5")` is exactly 0.5, a binary-exact value)
    although it does not match `^[0-9]+(\.[0-9]+)?$`. -/
theorem sort_numeric_counterexample :
    sortKeyOfValue ['.', '5'] = SKey.num ((1 : ℚ)/2) ∧
    matchesSpecNumPattern ['.', '5'] = false := by
  constructor
  · have h1 : pyIsDigitStr (removeFirstDot ['.', '5']) = true := by decide
    have h2 : decide ('.' ∈ (['.', '5'] : PyStr)) = true := by decide
    have h3 : (['.', '5'] : PyStr).all (fun c => decide (c = '.') || pyIsDecimalChar c) = true :=
      by decide
    have ha : List.takeWhile (fun c => decide (c ≠ '.')) (['.', '5'] : PyStr) = [] := rfl
    have hb : (List.dropWhile (fun c => decide (c ≠ '.')) (['.', '5'] : PyStr)).tail = ['5'] :=
      rfl
    have hn5 : natOfDecDigits ['5'] = 5 := by decide
    have hn0 : natOfDecDigits [] = 0 := rfl
    have hq : pyFloatDigits? ['.', '5'] = some ((1 : ℚ)/2) := by
      rw [pyFloatDigits?, if_pos h3]
      simp only [ha, hb, hn5, hn0, List.length_singleton, Option.some.injEq]
      norm_num
    rw [sortKeyOfValue, if_pos h1, if_pos h2, hq]
  · decide

/-- Claim C7 (amended): a string field value receives a numeric sort key from
    rule 3 of `sort_key` exactly when deleting the first `.` leaves a
    non-empty string of Unicode decimal digits — exactly then `int()` /
    `float()` succeed; when the `replace`/`isdigit` test passes but the
    string holds digit-typed non-decimal characters (such as the superscript
    `²`), the conversion raises ValueError, the exception is swallowed, and
    the value falls through to the date and string rules. -/
theorem sort_numeric_rule_spec (item : Rcd) (key : PyStr) :
    ((∃ q, sortKeyOf item key = SKey.num q) ↔
      (removeFirstDot (pyGetD item key []) ≠ [] ∧
        (removeFirstDot (pyGetD item key [])).all pyIsDecimalChar = true)) ∧
    (pyIsDigitStr (removeFirstDot (pyGetD item key [])) = true →
      (removeFirstDot (pyGetD item key [])).all pyIsDecimalChar = false →
      sortKeyOf item key = sortKeyRest (pyGetD item key [])) := by
  rw [sortKeyOf]
  generalize pyGetD item key [] = v
  constructor
  · by_cases hd : pyIsDigitStr (removeFirstDot v) = true
    · have hall : (removeFirstDot v).all pyIsDigitChar = true :=
        (pyIsDigitStr_parts _ hd).2
      have hne : removeFirstDot v ≠ [] := (pyIsDigitStr_parts _ hd).1
      by_cases hdec : (removeFirstDot v).all pyIsDecimalChar = true
      · constructor
        · intro _
          exact ⟨hne, hdec⟩
        · intro _
          rw [sortKeyOfValue, if_pos hd]
          by_cases hdot : '.' ∈ v
          · have hcond : v.all (fun c => decide (c = '.') || pyIsDecimalChar c) = true := by
              rw [allDotDec_of_digit v hall]
              exact hdec
            rw [if_pos (decide_eq_true hdot), pyFloatDigits?, if_pos hcond]
            exact ⟨_, rfl⟩
          · have hvv : removeFirstDot v = v := removeFirstDot_of_not_mem v hdot
            have hcond : v.all pyIsDecimalChar = true := hvv ▸ hdec
            rw [if_neg (by simpa using hdot), pyIntDigits?, if_pos hcond]
            exact ⟨_, rfl⟩
      · have hdecf : (removeFirstDot v).all pyIsDecimalChar = false :=
          Bool.eq_false_iff.mpr hdec
        have hnone := rule3_parse_none v hd hdecf
        rw [sortKeyOfValue, if_pos hd, hnone]
        constructor
        · rintro ⟨q, hq⟩
          exact absurd hq (sortKeyRest_ne_num v q)
        · rintro ⟨_, hcon⟩
          exact absurd hcon (by simp [hdecf])
    · rw [sortKeyOfValue, if_neg hd]
      constructor
      · rintro ⟨q, hq⟩
        exact absurd hq (sortKeyRest_ne_num v q)
      · rintro ⟨hne, hdec⟩
        exfalso
        apply hd
        apply pyIsDigitStr_intro _ hne
        rw [List.all_eq_true] at hdec ⊢
        intro x hx
        exact decimal_is_digit x (hdec x hx)
  · intro hd hdec
    rw [sortKeyOfValue, if_pos hd, rule3_parse_none v hd hdec]

/-- Witness for C7's ValueError fallthrough at the superscript digit `²`
    (U+00B2): the isdigit test of rule 3 passes, the string is not all
    decimal digits, and the sort key comes from the date and string rules. -/
theorem sort_numeric_rule_witness :
    pyIsDigitStr (removeFirstDot (pyGetD [(['n'], ['²'])] ['n'] [])) = true ∧
    (removeFirstDot (pyGetD [(['n'], ['²'])] ['n'] [])).all pyIsDecimalChar = false ∧
    sortKeyOf [(['n'], ['²'])] ['n'] =
      sortKeyRest (pyGetD [(['n'], ['²'])] ['n'] []) :=
  ⟨by decide, by decide, (sort_numeric_rule_spec _ _).2 (by decide) (by decide)⟩

/- ===== Empty-input claims. ===== -/

/-- Claim C8 counterexample: decoding the empty string does not yield an
    empty header list — the header list holds one empty name. -/
theorem empty_input_counterexample :
    (analyzeCsv [] autoStr).2.1 ≠ ([] : List PyStr) := by decide

/-- Claim C8 (amended): decoding the empty string returns without error an
    empty row list, a header list holding exactly one empty name, the default
    delimiter `,`, and an empty record list. -/
theorem empty_input_spec :
    analyzeCsv [] autoStr = ([], [[]], [',']) ∧ parseCsv [] autoStr = [] := by decide

/- ===== Scanner step equations. ===== -/

theorem scanCSV_nil (delim : PyStr) (inq : Bool) (f : PyStr) (row : List PyStr)
    (rows : List (List PyStr)) : scanCSV delim [] inq f row rows = rows ++ [row ++ [f]] := rfl

theorem scanCSV_qq (delim : PyStr) (r2 f : PyStr) (row : List PyStr) (rows : List (List PyStr)) :
    scanCSV delim ('"' :: '"' :: r2) true f row rows = scanCSV delim r2 true (f ++ ['"']) row rows :=
  rfl

theorem scanCSV_qclose (delim : PyStr) (rest f : PyStr) (row : List PyStr)
    (rows : List (List PyStr)) (h : rest.head? ≠ some '"') :
    scanCSV delim ('"' :: rest) true f row rows = scanCSV delim rest false f row rows := by
  match rest with
  | [] => rfl
  | c :: r2 =>
    have hc : c ≠ '"' := by
      intro hcc
      exact h (by rw [hcc]; rfl)
    simp [scanCSV, hc]

theorem scanCSV_inq_other (delim : PyStr) (c : Char) (rest f : PyStr) (row : List PyStr)
    (rows : List (List PyStr)) (hc : c ≠ '"') :
    scanCSV delim (c :: rest) true f row rows = scanCSV delim rest true (f ++ [c]) row rows := by
  simp [scanCSV, hc]

theorem scanCSV_qopen (delim : PyStr) (rest f : PyStr) (row : List PyStr)
    (rows : List (List PyStr)) :
    scanCSV delim ('"' :: rest) false f row rows = scanCSV delim rest true f row rows := by
  simp [scanCSV]

theorem scanCSV_delim_split (delim : PyStr) (c : Char) (rest f : PyStr) (row : List PyStr)
    (rows : List (List PyStr)) (hc : c ≠ '"') (hd : [c] = delim) :
    scanCSV delim (c :: rest) false f row rows =
      scanCSV delim rest false [] (row ++ [f]) rows := by
  simp [scanCSV, hc, hd]

theorem scanCSV_nl (delim : PyStr) (rest f : PyStr) (row : List PyStr)
    (rows : List (List PyStr)) (hd : ['\n'] ≠ delim) :
    scanCSV delim ('\n' :: rest) false f row rows =
      scanCSV delim rest false [] [] (rows ++ [row ++ [f]]) := by
  simp [scanCSV, hd]

theorem scanCSV_other (delim : PyStr) (c : Char) (rest f : PyStr) (row : List PyStr)
    (rows : List (List PyStr)) (hc : c ≠ '"') (hd : [c] ≠ delim) (hn : c ≠ '\n') :
    scanCSV delim (c :: rest) false f row rows =
      scanCSV delim rest false (f ++ [c]) row rows := by
  simp [scanCSV, hc, hd, hn]

/- ===== Analyzer-shape claims (C3, C4, C6, C10). ===== -/

theorem analyze_rows_decomp (text delimiter : PyStr) :
    (analyzeCsv text delimiter).1 =
      ((tokenRows text delimiter).tail.filter (fun r => !isBlankRow r)).map
        (truncPad (analyzeCsv text delimiter).2.1.length) := by
  cases h : tokenRows text delimiter with
  | nil => simp [analyzeCsv, h, normalizeRows_eq]
  | cons hd tl => simp [analyzeCsv, h, normalizeRows_eq]

/-- Claim C3 counterexample: decoding `"a\n,x"` outputs a record whose every
    field value trims to the empty string — the raw row `["", "x"]` is not
    blank, but truncation to the one-column header leaves only the blank
    field. -/
theorem blank_row_counterexample :
    parseCsv ['a', '\n', ',', 'x'] autoStr = [[(['a'], [])]] ∧
    ∀ kv ∈ ([(['a'], ([] : PyStr))] : Rcd), pyStrip kv.2 = [] := by decide

/-- Claim C3 (amended): the blank-row test is applied to the raw tokenized
    row *before* column normalization — the decoder's output rows are exactly
    the non-blank raw rows, truncated/padded afterwards; a record that is
    all-blank after truncation can therefore still appear. -/
theorem blank_row_elision_raw (text delimiter : PyStr) :
    (analyzeCsv text delimiter).1 =
      ((tokenRows text delimiter).tail.filter (fun r => !isBlankRow r)).map
        (truncPad (analyzeCsv text delimiter).2.1.length) :=
  analyze_rows_decomp text delimiter

/-- Claim C4 counterexample: with the duplicated header row `a,a` the single
    decoded record has one field, not `len(header) = 2`. -/
theorem field_count_counterexample :
    (analyzeCsv ['a', ',', 'a', '\n', '1', ',', '2'] autoStr).2.1.length = 2 ∧
    parseCsv ['a', ',', 'a', '\n', '1', ',', '2'] autoStr = [[(['a'], ['2'])]] := by decide

/-- Claim C4 (amended): every record of one decode has exactly the fields
    `firstDedup header` — the header names in first-occurrence order — and
    hence exactly `len(header)` fields whenever the header names are
    distinct. -/
theorem record_keys_spec (text delimiter : PyStr) :
    ∀ rec ∈ parseCsv text delimiter,
      rec.map Prod.fst = firstDedup (analyzeCsv text delimiter).2.1 ∧
      ((analyzeCsv text delimiter).2.1.Nodup →
        rec.length = (analyzeCsv text delimiter).2.1.length) := by
  intro rec hrec
  simp only [parseCsv, rowsToObjects] at hrec
  rcases List.mem_map.mp hrec with ⟨r, _, rfl⟩
  refine ⟨recordOf_keys _ r, fun hnd => ?_⟩
  have hkeys := recordOf_keys (analyzeCsv text delimiter).2.1 r
  have hlen : (recordOf (analyzeCsv text delimiter).2.1 r).length =
      (firstDedup (analyzeCsv text delimiter).2.1).length := by
    rw [← hkeys, List.length_map]
  rw [hlen, firstDedup_of_nodup _ hnd]

/-- Witness for C4 at the decode of `"a,b\n1,2"`. -/
theorem record_keys_witness :
    (([(['a'], ['1']), (['b'], ['2'])] : Rcd).map Prod.fst =
      firstDedup (analyzeCsv ['a', ',', 'b', '\n', '1', ',', '2'] autoStr).2.1) ∧
    ((analyzeCsv ['a', ',', 'b', '\n', '1', ',', '2'] autoStr).2.1.Nodup →
      ([(['a'], ['1']), (['b'], ['2'])] : Rcd).length =
        (analyzeCsv ['a', ',', 'b', '\n', '1', ',', '2'] autoStr).2.1.length) :=
  record_keys_spec _ _ _ (by decide)

/-- Claim C6 counterexample: in the header row `a,<BOM>b` the second cell's
    leading BOM is removed too — it is not kept. -/
theorem header_bom_counterexample :
    (analyzeCsv ['a', ',', '\uFEFF', 'b', '\n', '1', ',', '2'] autoStr).2.1 = [['a'], ['b']] := by
  decide

/-- Claim C6 (amended): the first tokenized row is popped as the header, and
    *every* header cell — not only the first — has all its leading
    byte-order-mark characters removed and its surrounding whitespace trimmed;
    the data rows are built from the remaining token rows only. -/
theorem header_cleanup_spec (text delimiter : PyStr) :
    (∀ i : Nat, (analyzeCsv text delimiter).2.1.get? i =
      ((tokenRows text delimiter).headI.get? i).map (fun h => pyStrip (lstripBOM h))) ∧
    (analyzeCsv text delimiter).1 =
      normalizeRows (analyzeCsv text delimiter).2.1.length (tokenRows text delimiter).tail := by
  have hfun : (fun h => pyStrip (lstripBOM h)) = headerClean := rfl
  cases h : tokenRows text delimiter with
  | nil =>
    constructor
    · intro i
      have hdef : (default : List PyStr) = [] := rfl
      simp [analyzeCsv, h, List.headI, hdef]
    · simp [analyzeCsv, h]
  | cons hd tl =>
    constructor
    · intro i
      rw [hfun]
      simp [analyzeCsv, h, List.headI, List.getElem?_map]
    · simp [analyzeCsv, h]

/- ===== Non-single-character delimiter (C9). ===== -/

theorem scanNoDelim_qq (r2 f : PyStr) (row : List PyStr) (rows : List (List PyStr)) :
    scanNoDelim ('"' :: '"' :: r2) true f row rows = scanNoDelim r2 true (f ++ ['"']) row rows :=
  rfl

theorem scanNoDelim_qclose (rest f : PyStr) (row : List PyStr)
    (rows : List (List PyStr)) (h : rest.head? ≠ some '"') :
    scanNoDelim ('"' :: rest) true f row rows = scanNoDelim rest false f row rows := by
  match rest with
  | [] => rfl
  | c :: r2 =>
    have hc : c ≠ '"' := by
      intro hcc
      exact h (by rw [hcc]; rfl)
    simp [scanNoDelim, hc]

theorem scanNoDelim_inq_other (c : Char) (rest f : PyStr) (row : List PyStr)
    (rows : List (List PyStr)) (hc : c ≠ '"') :
    scanNoDelim (c :: rest) true f row rows = scanNoDelim rest true (f ++ [c]) row rows := by
  simp [scanNoDelim, hc]

theorem scanNoDelim_qopen (rest f : PyStr) (row : List PyStr) (rows : List (List PyStr)) :
    scanNoDelim ('"' :: rest) false f row rows = scanNoDelim rest true f row rows := by
  simp [scanNoDelim]

theorem scanNoDelim_nl (rest f : PyStr) (row : List PyStr) (rows : List (List PyStr)) :
    scanNoDelim ('\n' :: rest) false f row rows =
      scanNoDelim rest false [] [] (rows ++ [row ++ [f]]) := by
  simp [scanNoDelim]

theorem scanNoDelim_other (c : Char) (rest f : PyStr) (row : List PyStr)
    (rows : List (List PyStr)) (hc : c ≠ '"') (hn : c ≠ '\n') :
    scanNoDelim (c :: rest) false f row rows = scanNoDelim rest false (f ++ [c]) row rows := by
  simp [scanNoDelim, hc, hn]

theorem scan_eq_noDelim (delim : PyStr) (hone : ∀ c : Char, [c] ≠ delim) :
    ∀ (l : PyStr) (inq : Bool) (field : PyStr) (row : List PyStr) (rows : List (List PyStr)),
      scanCSV delim l inq field row rows = scanNoDelim l inq field row rows := by
  intro l inq field row rows
  induction l, inq, field, row, rows using scanCSV.induct delim with
  | case1 inq f row rows => rfl
  | case2 r2 f row rows ih => rw [scanCSV_qq, scanNoDelim_qq, ih]
  | case3 rest f row rows hx ih =>
    have hh : rest.head? ≠ some '"' := by
      intro hcon
      cases rest with
      | nil => simp at hcon
      | cons c r2 =>
        simp only [List.head?_cons, Option.some.injEq] at hcon
        exact hx r2 (by rw [hcon])
    rw [scanCSV_qclose _ _ _ _ _ hh, scanNoDelim_qclose _ _ _ _ hh, ih]
  | case4 c rest f row rows _ hc ih =>
    rw [scanCSV_inq_other _ _ _ _ _ _ hc, scanNoDelim_inq_other _ _ _ _ _ hc, ih]
  | case5 rest f row rows ih => rw [scanCSV_qopen, scanNoDelim_qopen, ih]
  | case6 c rest f row rows _ hd _ => exact absurd hd (hone c)
  | case7 rest f row rows _ hd ih => rw [scanCSV_nl _ _ _ _ _ hd, scanNoDelim_nl, ih]
  | case8 c rest f row rows hc hd hn ih =>
    rw [scanCSV_other _ _ _ _ _ _ hc hd hn, scanNoDelim_other _ _ _ _ _ hc hn, ih]

/-- Claim C9 counterexample: parsing with the two-character delimiter `"::"`
    raises no error — a full record set is constructed and returned (no
    `UnsupportedDelimiter` exists anywhere in the code). -/
theorem multichar_delim_counterexample :
    parseCsv ['a', ',', 'b', '\n', 'c', ',', 'd'] [':', ':'] =
      [[(['a', ',', 'b'], ['c', ',', 'd'])]] := by decide

/-- Claim C9 (amended): an explicit delimiter that is not `"auto"` and equals
    no one-character string raises nothing: decoding proceeds with the
    delimiter never matching any character, so fields are split only at
    newlines (quote handling unchanged), and the requested delimiter is
    reported back unchanged. -/
theorem multichar_delim_spec (text delimiter : PyStr)
    (hauto : delimiter ≠ autoStr) (hone : ∀ c : Char, [c] ≠ delimiter) :
    tokenRows text delimiter = scanNoDelim (pyNormalize text) false [] [] [] ∧
    (analyzeCsv text delimiter).2.2 = delimiter := by
  have hd : usedDelim text delimiter = delimiter := by
    rw [usedDelim, if_neg hauto]
  constructor
  · rw [tokenRows, hd]
    exact scan_eq_noDelim delimiter hone _ _ _ _ _
  · exact hd

/-- Witness for C9 at `"a,b\nc,d"` with delimiter `"::"`. -/
theorem multichar_delim_witness :
    tokenRows ['a', ',', 'b', '\n', 'c', ',', 'd'] [':', ':'] =
      scanNoDelim (pyNormalize ['a', ',', 'b', '\n', 'c', ',', 'd']) false [] [] [] ∧
    (analyzeCsv ['a', ',', 'b', '\n', 'c', ',', 'd'] [':', ':']).2.2 = [':', ':'] :=
  multichar_delim_spec _ _ (by decide) (fun c h => by simp at h)

/- ===== Data values are never trimmed (C10). ===== -/

theorem getD_mem_or_default : ∀ (l : List PyStr) (i : Nat), l.getD i [] ∈ l ∨ l.getD i [] = [] := by
  intro l
  induction l with
  | nil =>
    intro i
    right
    cases i <;> rfl
  | cons a t ih =>
    intro i
    cases i with
    | zero =>
      rw [List.getD_cons_zero]
      exact Or.inl (List.mem_cons_self _ _)
    | succ n =>
      rw [List.getD_cons_succ]
      rcases ih n with h | h
      · exact Or.inl (List.mem_cons_of_mem _ h)
      · exact Or.inr h

theorem mem_truncPad (cols : Nat) (r0 : List PyStr) (v : PyStr)
    (hv : v ∈ truncPad cols r0) : v ∈ r0 ∨ v = [] := by
  rcases List.mem_append.mp hv with hv | hv
  · exact Or.inl (List.take_subset _ _ hv)
  · exact Or.inr (List.eq_of_mem_replicate hv)

/-- Claim C10: data field values are never trimmed — every field value of a
    decoded record is either the defensive padding empty string or literally
    one of the raw tokenized fields (whitespace trimming touches only header
    names and the blank-row test); in particular the cell `" x "` decodes to
    the value `" x "` unchanged. -/
theorem data_values_untrimmed (text delimiter : PyStr) :
    (∀ rec ∈ parseCsv text delimiter, ∀ kv ∈ rec,
      kv.2 = [] ∨ ∃ r ∈ tokenRows text delimiter, kv.2 ∈ r) ∧
    parseCsv ['a', '\n', ' ', 'x', ' '] autoStr = [[(['a'], [' ', 'x', ' '])]] := by
  constructor
  · intro rec hrec kv hkv
    simp only [parseCsv, rowsToObjects] at hrec
    rcases List.mem_map.mp hrec with ⟨r, hr, rfl⟩
    rcases mem_buildDict_val _ _ hkv with ⟨q, hq, hqv⟩
    rcases List.mem_map.mp hq with ⟨ip, _, heq⟩
    have hval : kv.2 = r.getD ip.1 [] := by
      rw [← hqv, ← heq]
    rcases getD_mem_or_default r ip.1 with hvr | hvr
    · rw [analyze_rows_decomp] at hr
      rcases List.mem_map.mp hr with ⟨r0, hr0, rfl⟩
      rcases mem_truncPad _ _ _ hvr with hvr0 | hvr0
      · refine Or.inr ⟨r0, (List.tail_sublist _).subset (List.mem_of_mem_filter hr0), ?_⟩
        rw [hval]
        exact hvr0
      · exact Or.inl (by rw [hval, hvr0])
    · exact Or.inl (by rw [hval, hvr])
  · decide

/-- Witness for C10: the value `" x "` of the decode of `"a\n x "` appears
    verbatim among the tokenized raw fields. -/
theorem data_values_untrimmed_witness :
    (([' ', 'x', ' '] : PyStr) = [] ∨
      ∃ r ∈ tokenRows ['a', '\n', ' ', 'x', ' '] autoStr, ([' ', 'x', ' '] : PyStr) ∈ r) :=
  (data_values_untrimmed ['a', '\n', ' ', 'x', ' '] autoStr).1
    [(['a'], [' ', 'x', ' '])] (by decide) ((['a'], [' ', 'x', ' '])) (by decide)

/- ===== Round-trip (C1): character-content lemmas. ===== -/

theorem mem_escQuotes {c : Char} : ∀ {s : PyStr}, c ∈ escQuotes s → c ∈ s ∨ c = '"' := by
  intro s
  induction s with
  | nil => intro h; simp [escQuotes] at h
  | cons a t ih =>
    intro h
    rw [escQuotes] at h
    rcases List.mem_append.mp h with h | h
    · by_cases ha : a = '"'
      · simp [ha] at h
        exact Or.inr h
      · simp [ha] at h
        exact Or.inl (by rw [h]; exact List.mem_cons_self _ _)
    · rcases ih h with h | h
      · exact Or.inl (List.mem_cons_of_mem _ h)
      · exact Or.inr h

theorem mem_emitCell {c : Char} {delim s : PyStr} (h : c ∈ emitCell delim s) :
    c ∈ s ∨ c = '"' := by
  rw [emitCell] at h
  by_cases hq : needsQuote delim s
  · rw [if_pos hq, quoteCell] at h
    rcases List.mem_cons.mp h with h | h
    · exact Or.inr h
    · rcases List.mem_append.mp h with h | h
      · exact mem_escQuotes h
      · simp at h
        exact Or.inr h
  · rw [if_neg hq] at h
    exact Or.inl h

theorem mem_pyJoin {c : Char} {sep : PyStr} :
    ∀ {ls : List PyStr}, c ∈ pyJoin sep ls → c ∈ sep ∨ ∃ l ∈ ls, c ∈ l := by
  intro ls
  induction ls with
  | nil => intro h; simp [pyJoin] at h
  | cons l t ih =>
    intro h
    cases t with
    | nil =>
      exact Or.inr ⟨l, List.mem_cons_self _ _, h⟩
    | cons l2 t2 =>
      have hj : pyJoin sep (l :: l2 :: t2) = l ++ sep ++ pyJoin sep (l2 :: t2) := rfl
      rw [hj] at h
      rcases List.mem_append.mp h with h | h
      · rcases List.mem_append.mp h with h | h
        · exact Or.inr ⟨l, List.mem_cons_self _ _, h⟩
        · exact Or.inl h
      · rcases ih h with h | ⟨l', hl', hc⟩
        · exact Or.inl h
        · exact Or.inr ⟨l', List.mem_cons_of_mem _ hl', hc⟩

theorem mem_emitRow {c : Char} {delim : PyStr} {cells : List PyStr}
    (h : c ∈ emitRow delim cells) : c ∈ delim ∨ c = '"' ∨ ∃ s ∈ cells, c ∈ s := by
  rw [emitRow] at h
  rcases mem_pyJoin h with h | ⟨l, hl, hc⟩
  · exact Or.inl h
  · rcases List.mem_map.mp hl with ⟨s, hs, rfl⟩
    rcases mem_emitCell hc with h | h
    · exact Or.inr (Or.inr ⟨s, hs, h⟩)
    · exact Or.inr (Or.inl h)

theorem replCRLF_id : ∀ (t : PyStr), '\r' ∉ t → replCRLF t = t := by
  intro t
  induction t using replCRLF.induct with
  | case1 t => intro h; simp at h
  | case2 c t hx ih =>
    intro h
    rw [replCRLF]
    · rw [ih (fun hc => h (List.mem_cons_of_mem _ hc))]
    · exact hx
  | case3 => intro _; rfl

theorem replCR_id (t : PyStr) (h : '\r' ∉ t) : replCR t = t := by
  rw [replCR]
  have : ∀ c ∈ t, (if c = '\r' then '\n' else c) = c := by
    intro c hc
    rw [if_neg]
    intro hcr
    exact h (hcr ▸ hc)
  rw [List.map_congr_left this]
  exact List.map_id t

theorem pyNormalize_id (t : PyStr) (h : '\r' ∉ t) : pyNormalize t = t := by
  rw [pyNormalize, replCRLF_id t h, replCR_id t h]

theorem pyStrip_cons_ne_nil (c : Char) (s : PyStr) (hc : pyIsSpaceChar c = false) :
    pyStrip (c :: s) ≠ [] := by
  rw [pyStrip, pyStripL, List.dropWhile_cons_of_neg (by rw [hc]; decide), pyStripR]
  intro hcon
  split at hcon
  · next hif =>
    rw [hc] at hif
    simp at hif
  · cases hcon

theorem hasSub_singleton (c : Char) : ∀ (s : PyStr), hasSub [c] s = true ↔ c ∈ s := by
  intro s
  induction s with
  | nil => simp [hasSub]
  | cons a t ih =>
    rw [hasSub, leadsWith]
    constructor
    · intro h
      rcases Bool.or_eq_true_iff.mp h with h | h
      · rcases Bool.and_eq_true_iff.mp h with ⟨h1, _⟩
        exact List.mem_cons.mpr (Or.inl (eq_of_beq h1))

      · exact List.mem_cons_of_mem _ (ih.mp h)
    · intro h
      rcases List.mem_cons.mp h with rfl | h
      · apply Bool.or_eq_true_iff.mpr
        left
        simp [leadsWith]
      · exact Bool.or_eq_true_iff.mpr (Or.inr (ih.mpr h))

theorem needsQuote_false_facts (s : PyStr) (h : needsQuote [','] s = false) :
    ',' ∉ s ∧ '\n' ∉ s ∧ '"' ∉ s := by
  rw [needsQuote] at h
  simp only [Bool.or_eq_false_iff] at h
  obtain ⟨⟨⟨⟨h1, h2⟩, _⟩, h4⟩, _⟩ := h
  refine ⟨?_, ?_, ?_⟩
  · intro hc
    rw [(hasSub_singleton ',' s).mpr hc] at h1
    cases h1
  · intro hc
    simp [hc] at h2
  · intro hc
    simp [hc] at h4

/- ===== Round-trip (C1): delimiter-detection lemmas. ===== -/

theorem pySplitNL_ne_nil : ∀ (l : PyStr), pySplitNL l ≠ [] := by
  intro l
  induction l with
  | nil => simp [pySplitNL]
  | cons c t ih =>
    rw [pySplitNL]
    by_cases hc : c = '\n'
    · simp [hc]
    · rw [if_neg hc]
      cases hh : pySplitNL t with
      | nil => exact absurd hh ih
      | cons s ss => simp

theorem pySplitNL_head :
    ∀ (l : PyStr), (pySplitNL l).head? = some (l.takeWhile (fun c => decide (c ≠ '\n'))) := by
  intro l
  induction l with
  | nil => rfl
  | cons c t ih =>
    rw [pySplitNL]
    by_cases hc : c = '\n'
    · subst hc
      simp [List.takeWhile_cons]
    · rw [if_neg hc]
      cases hh : pySplitNL t with
      | nil => exact absurd hh (pySplitNL_ne_nil t)
      | cons s ss =>
        rw [hh] at ih
        have hs : s = t.takeWhile (fun c => decide (c ≠ '\n')) := by simpa using ih
        simp [List.takeWhile_cons, hc, hs]

theorem sg_qclose (d : Char) (rest cur : PyStr) (acc : List PyStr)
    (h : rest.head? ≠ some '"') :
    sgAux d ('"' :: rest) true cur acc = sgAux d rest false cur acc := by
  match rest with
  | [] => rfl
  | c :: r2 =>
    have hc : c ≠ '"' := by
      intro hcc
      exact h (by rw [hcc]; rfl)
    simp [sgAux, hc]

theorem sg_qopen (d : Char) (rest cur : PyStr) (acc : List PyStr) :
    sgAux d ('"' :: rest) false cur acc = sgAux d rest true cur acc := by
  simp [sgAux]

theorem sg_split (d : Char) (c : Char) (rest cur : PyStr) (acc : List PyStr)
    (hc : c ≠ '"') (hd : c = d) :
    sgAux d (c :: rest) false cur acc = sgAux d rest false [] (acc ++ [cur]) := by
  subst hd
  simp [sgAux, hc]

theorem sg_other_t (d : Char) (c : Char) (rest cur : PyStr) (acc : List PyStr)
    (hc : c ≠ '"') :
    sgAux d (c :: rest) true cur acc = sgAux d rest true (cur ++ [c]) acc := by
  simp [sgAux, hc]

theorem sg_other_f (d : Char) (c : Char) (rest cur : PyStr) (acc : List PyStr)
    (hc : c ≠ '"') (hd : c ≠ d) :
    sgAux d (c :: rest) false cur acc = sgAux d rest false (cur ++ [c]) acc := by
  simp [sgAux, hc, hd]

theorem sg_len_ge (d : Char) :
    ∀ (l : PyStr) (inq : Bool) (cur : PyStr) (acc : List PyStr),
      acc.length + 1 ≤ (sgAux d l inq cur acc).length := by
  intro l inq cur acc
  induction l, inq, cur, acc using sgAux.induct d with
  | case1 x cur acc => simp [sgAux]
  | case2 r2 cur acc ih => exact ih
  | case3 rest cur acc hx ih =>
    have hh : rest.head? ≠ some '"' := by
      intro hcon
      cases rest with
      | nil => simp at hcon
      | cons c r2 =>
        simp only [List.head?_cons, Option.some.injEq] at hcon
        exact hx r2 (by rw [hcon])
    rw [sg_qclose _ _ _ _ hh]
    exact ih
  | case4 rest cur acc ih =>
    rw [sg_qopen]
    exact ih
  | case5 c rest inq cur acc _ h2 h3 hcd ih =>
    obtain ⟨hinq, hcd'⟩ := hcd
    subst hinq
    have hc : c ≠ '"' := fun h => h3 h rfl
    rw [sg_split _ _ _ _ _ hc hcd']
    have hlen : (acc ++ [cur]).length = acc.length + 1 := by simp
    omega
  | case6 c rest inq cur acc _ h2 h3 hnd ih =>
    have hc : c ≠ '"' := by
      intro h
      cases hb : inq
      · exact h3 h hb
      · exact h2 h hb
    cases hb : inq with
    | true =>
      subst hb
      rw [sg_other_t _ _ _ _ _ hc]
      exact ih
    | false =>
      subst hb
      have hd : c ≠ d := fun h => hnd ⟨rfl, h⟩
      rw [sg_other_f _ _ _ _ _ hc hd]
      exact ih

theorem sg_len_not_mem (d : Char) :
    ∀ (l : PyStr) (inq : Bool) (cur : PyStr) (acc : List PyStr),
      d ∉ l → (sgAux d l inq cur acc).length = acc.length + 1 := by
  intro l inq cur acc
  induction l, inq, cur, acc using sgAux.induct d with
  | case1 x cur acc => intro _; simp [sgAux]
  | case2 r2 cur acc ih =>
    intro hd
    exact ih (fun h => hd (List.mem_cons_of_mem _ (List.mem_cons_of_mem _ h)))
  | case3 rest cur acc hx ih =>
    intro hd
    have hh : rest.head? ≠ some '"' := by
      intro hcon
      cases rest with
      | nil => simp at hcon
      | cons c r2 =>
        simp only [List.head?_cons, Option.some.injEq] at hcon
        exact hx r2 (by rw [hcon])
    rw [sg_qclose _ _ _ _ hh]
    exact ih (fun h => hd (List.mem_cons_of_mem _ h))
  | case4 rest cur acc ih =>
    intro hd
    rw [sg_qopen]
    exact ih (fun h => hd (List.mem_cons_of_mem _ h))
  | case5 c rest inq cur acc _ h2 h3 hcd ih =>
    intro hd
    obtain ⟨hinq, hcd'⟩ := hcd
    exact absurd (hcd' ▸ List.mem_cons_self c rest) hd
  | case6 c rest inq cur acc _ h2 h3 hnd ih =>
    intro hd
    have hc : c ≠ '"' := by
      intro h
      cases hb : inq
      · exact h3 h hb
      · exact h2 h hb
    have hdt : d ∉ rest := fun h => hd (List.mem_cons_of_mem _ h)
    cases hb : inq with
    | true =>
      subst hb
      rw [sg_other_t _ _ _ _ _ hc]
      exact ih hdt
    | false =>
      subst hb
      have hdc : c ≠ d := fun h => hnd ⟨rfl, h⟩
      rw [sg_other_f _ _ _ _ _ hc hdc]
      exact ih hdt

theorem guessFromLine_comma (fl : PyStr) (ht : '\t' ∉ fl) (hs : ';' ∉ fl) :
    guessFromLine fl = ',' := by
  have hc1 : 1 ≤ (splitLineForGuess fl ',').length := by
    simpa using sg_len_ge ',' fl false [] []
  have hct : (splitLineForGuess fl '\t').length = 1 := by
    simpa using sg_len_not_mem '\t' fl false [] [] ht
  have hcs : (splitLineForGuess fl ';').length = 1 := by
    simpa using sg_len_not_mem ';' fl false [] [] hs
  simp only [guessFromLine, List.foldl_cons, List.foldl_nil]
  rw [if_pos (show (splitLineForGuess fl ',').length > 0 by omega)]
  rw [hct]
  rw [if_neg (show ¬ (1 > (splitLineForGuess fl ',').length) by omega)]
  rw [hcs]
  rw [if_neg (show ¬ (1 > (splitLineForGuess fl ',').length) by omega)]

theorem takeWhile_append_break (p : Char → Bool) (c : Char) (hc : p c = false) :
    ∀ (A B : PyStr), (A ++ c :: B).takeWhile p = A.takeWhile p := by
  intro A B
  induction A with
  | nil => simp [List.takeWhile_cons, hc]
  | cons a t ih =>
    by_cases ha : p a
    · simp [List.takeWhile_cons, ha, ih]
    · simp [List.takeWhile_cons, ha]

/- ===== Round-trip (C1): scanning emitted cells, rows, lines. ===== -/

theorem pyJoin_cons2 (sep l l2 : PyStr) (t2 : List PyStr) :
    pyJoin sep (l :: l2 :: t2) = l ++ sep ++ pyJoin sep (l2 :: t2) := rfl

theorem scan_esc (delim : PyStr) :
    ∀ (s rest f : PyStr) (row : List PyStr) (rows : List (List PyStr)),
      rest.head? ≠ some '"' →
      scanCSV delim (escQuotes s ++ '"' :: rest) true f row rows =
        scanCSV delim rest false (f ++ s) row rows := by
  intro s
  induction s with
  | nil =>
    intro rest f row rows hr
    rw [escQuotes, List.nil_append, scanCSV_qclose _ _ _ _ _ hr, List.append_nil]
  | cons c t ih =>
    intro rest f row rows hr
    by_cases hc : c = '"'
    · subst hc
      rw [escQuotes, if_pos rfl]
      have hshape : ((['"', '"'] ++ escQuotes t) ++ '"' :: rest) =
          '"' :: '"' :: (escQuotes t ++ '"' :: rest) := by simp
      rw [hshape, scanCSV_qq, ih _ _ _ _ hr]
      simp
    · rw [escQuotes, if_neg hc]
      have hshape : (([c] ++ escQuotes t) ++ '"' :: rest) =
          c :: (escQuotes t ++ '"' :: rest) := by simp
      rw [hshape, scanCSV_inq_other _ _ _ _ _ _ hc, ih _ _ _ _ hr]
      simp

theorem scan_unquoted (delim : PyStr) :
    ∀ (s : PyStr), (∀ x ∈ s, x ≠ '"' ∧ [x] ≠ delim ∧ x ≠ '\n') →
      ∀ (rest f : PyStr) (row : List PyStr) (rows : List (List PyStr)),
        scanCSV delim (s ++ rest) false f row rows =
          scanCSV delim rest false (f ++ s) row rows := by
  intro s
  induction s with
  | nil =>
    intro _ rest f row rows
    simp
  | cons c t ih =>
    intro hx rest f row rows
    obtain ⟨hc, hd, hn⟩ := hx c (List.mem_cons_self _ _)
    rw [List.cons_append, scanCSV_other _ _ _ _ _ _ hc hd hn,
      ih (fun x hxt => hx x (List.mem_cons_of_mem _ hxt))]
    simp

theorem scan_cell (s rest f : PyStr) (row : List PyStr) (rows : List (List PyStr))
    (hr : rest.head? ≠ some '"') :
    scanCSV [','] (emitCell [','] s ++ rest) false f row rows =
      scanCSV [','] rest false (f ++ s) row rows := by
  by_cases hq : needsQuote [','] s = true
  · rw [emitCell, if_pos hq, quoteCell]
    have hshape : (('"' :: (escQuotes s ++ ['"'])) ++ rest) =
        '"' :: (escQuotes s ++ '"' :: rest) := by simp
    rw [hshape, scanCSV_qopen, scan_esc _ _ _ _ _ _ hr]
  · have hq' : needsQuote [','] s = false := by simpa using hq
    rw [emitCell, if_neg (by simp [hq'])]
    obtain ⟨h1, h2, h3⟩ := needsQuote_false_facts s hq'
    apply scan_unquoted
    intro x hx
    refine ⟨fun h => h3 (h ▸ hx), fun h => ?_, fun h => h2 (h ▸ hx)⟩
    have hx' : x = ',' := by simpa using h
    exact h1 (hx' ▸ hx)

theorem scan_row_nl :
    ∀ (cs : List PyStr) (c0 rest f : PyStr) (row : List PyStr) (rows : List (List PyStr)),
      scanCSV [','] (emitRow [','] (c0 :: cs) ++ '\n' :: rest) false f row rows =
        scanCSV [','] rest false [] [] (rows ++ [row ++ (f ++ c0) :: cs]) := by
  intro cs
  induction cs with
  | nil =>
    intro c0 rest f row rows
    have he : emitRow [','] [c0] = emitCell [','] c0 := rfl
    rw [he, scan_cell _ _ _ _ _ (by simp), scanCSV_nl _ _ _ _ _ (by decide)]
  | cons c1 t ih =>
    intro c0 rest f row rows
    have he : emitRow [','] (c0 :: c1 :: t) =
        emitCell [','] c0 ++ [','] ++ emitRow [','] (c1 :: t) := by
      rw [emitRow, List.map_cons, List.map_cons, pyJoin_cons2]
      rfl
    have hshape : (emitCell [','] c0 ++ [','] ++ emitRow [','] (c1 :: t)) ++ '\n' :: rest =
        emitCell [','] c0 ++ ',' :: (emitRow [','] (c1 :: t) ++ '\n' :: rest) := by
      simp
    rw [he, hshape, scan_cell _ _ _ _ _ (by simp),
      scanCSV_delim_split _ _ _ _ _ _ (by decide) rfl, ih]
    simp

theorem scan_row_end :
    ∀ (cs : List PyStr) (c0 f : PyStr) (row : List PyStr) (rows : List (List PyStr)),
      scanCSV [','] (emitRow [','] (c0 :: cs)) false f row rows =
        rows ++ [row ++ (f ++ c0) :: cs] := by
  intro cs
  induction cs with
  | nil =>
    intro c0 f row rows
    have he : emitRow [','] [c0] = emitCell [','] c0 ++ [] := by
      rw [List.append_nil]
      rfl
    rw [he, scan_cell _ _ _ _ _ (by simp), scanCSV_nil]
  | cons c1 t ih =>
    intro c0 f row rows
    have he : emitRow [','] (c0 :: c1 :: t) =
        emitCell [','] c0 ++ ',' :: emitRow [','] (c1 :: t) := by
      rw [emitRow, List.map_cons, List.map_cons, pyJoin_cons2]
      simp
      rfl
    rw [he, scan_cell _ _ _ _ _ (by simp),
      scanCSV_delim_split _ _ _ _ _ _ (by decide) rfl, ih]
    simp

theorem scan_lines :
    ∀ (rest : List (List PyStr)) (c0 : PyStr) (cs : List PyStr) (f : PyStr)
      (row : List PyStr) (rows : List (List PyStr)),
      (∀ dc ∈ rest, dc ≠ []) →
      scanCSV [','] (pyJoin ['\n'] (((c0 :: cs) :: rest).map (emitRow [',']))) false f row rows =
        rows ++ (row ++ (f ++ c0) :: cs) :: rest := by
  intro rest
  induction rest with
  | nil =>
    intro c0 cs f row rows _
    have he : pyJoin ['\n'] ([c0 :: cs].map (emitRow [','])) = emitRow [','] (c0 :: cs) := rfl
    rw [he, scan_row_end]
  | cons dc rest2 ih =>
    intro c0 cs f row rows hne
    have hdc : dc ≠ [] := hne dc (List.mem_cons_self _ _)
    obtain ⟨d0, ds, rfl⟩ : ∃ d0 ds, dc = d0 :: ds := by
      cases dc with
      | nil => exact absurd rfl hdc
      | cons d0 ds => exact ⟨d0, ds, rfl⟩
    have he : pyJoin ['\n'] (((c0 :: cs) :: (d0 :: ds) :: rest2).map (emitRow [','])) =
        emitRow [','] (c0 :: cs) ++ '\n' ::
          pyJoin ['\n'] (((d0 :: ds) :: rest2).map (emitRow [','])) := by
      rw [List.map_cons, List.map_cons, pyJoin_cons2]
      simp
    rw [he, scan_row_nl, ih d0 ds [] [] _ (fun dc2 h2 => hne dc2 (List.mem_cons_of_mem _ h2))]
    simp

/- ===== Round-trip (C1): rebuilding records from their own projection. ===== -/

theorem pairs_fst (H r : List PyStr) :
    (H.enum.map (fun ih => (ih.2, r.getD ih.1 []))).map Prod.fst = H := by
  rw [List.map_map]
  have h : (Prod.fst ∘ fun ih : Nat × PyStr => (ih.2, r.getD ih.1 [])) =
      (Prod.snd : Nat × PyStr → PyStr) := rfl
  rw [h, List.enum_map_snd]

theorem enumFrom_pairs_of_map (g : PyStr → PyStr) :
    ∀ (t pre : List PyStr),
      (List.enumFrom pre.length t).map
          (fun ih => (ih.2, ((pre ++ t).map g).getD ih.1 [])) =
        t.map (fun h => (h, g h)) := by
  intro t
  induction t with
  | nil => intro pre; rfl
  | cons a t2 ih =>
    intro pre
    rw [List.enumFrom_cons, List.map_cons]
    congr 1
    · simp only []
      congr 1
      rw [List.map_append]
      rw [List.getD_append_right _ _ _ _ (by simp)]
      simp [List.getD_cons_zero]
    · have hlen : pre.length + 1 = (pre ++ [a]).length := by simp
      have happ : pre ++ a :: t2 = (pre ++ [a]) ++ t2 := by simp
      rw [hlen, happ]
      exact ih (pre ++ [a])

theorem enum_pairs_of_map (g : PyStr → PyStr) (H : List PyStr) :
    H.enum.map (fun ih => (ih.2, (H.map g).getD ih.1 [])) = H.map (fun h => (h, g h)) := by
  have h := enumFrom_pairs_of_map g H []
  simpa [List.enum] using h

theorem lastVal_keyed (ks : List PyStr) (f : PyStr → PyStr) (dflt : PyStr) (k : PyStr)
    (hk : k ∈ ks) :
    lastVal (ks.map (fun k' => (k', f k'))) dflt k = f k := by
  rw [lastVal, lastVal?, ← List.map_reverse, findq_keyed, if_pos (List.mem_reverse.mpr hk)]
  rfl

theorem mem_buildDict_get (ps : List (PyStr × PyStr)) (kv : PyStr × PyStr)
    (hkv : kv ∈ buildDict ps) : pyGet (buildDict ps) kv.1 = some kv.2 := by
  rw [buildDict_eq ([] : PyStr)] at hkv
  rcases List.mem_map.mp hkv with ⟨k, hk, hkkv⟩
  have hmem : k ∈ ps.map Prod.fst := mem_firstDedup.mp hk
  rw [pyGet_buildDict, ← hkkv]
  rw [lastValq_eq_some ([] : PyStr) ps k hmem]

theorem pyGetD_recordOf_cases (H : List PyStr) (r : List PyStr) (h : PyStr) :
    pyGetD (recordOf H r) h [] = [] ∨ pyGetD (recordOf H r) h [] ∈ r := by
  cases hg : pyGet (recordOf H r) h with
  | none =>
    left
    simp [pyGetD, hg]
  | some w =>
    have hw : pyGetD (recordOf H r) h [] = w := by simp [pyGetD, hg]
    rw [pyGet] at hg
    rcases Option.map_eq_some'.mp hg with ⟨p, hp, hpw⟩
    rcases mem_buildDict_val _ _ (List.mem_of_find?_eq_some hp) with ⟨q, hq, hqv⟩
    rcases List.mem_map.mp hq with ⟨ip, _, hipq⟩
    have hqval : q.2 = r.getD ip.1 [] := by rw [← hipq]
    rcases getD_mem_or_default r ip.1 with hm | hm
    · right
      rw [hw, ← hpw, ← hqv, hqval]
      exact hm
    · left
      rw [hw, ← hpw, ← hqv, hqval, hm]

theorem records_rebuild (H : List PyStr) (r : List PyStr) :
    recordOf H (projCells H (recordOf H r)) = recordOf H r := by
  have key : ∀ (D : Rcd), D = recordOf H r →
      recordOf H (projCells H D) = recordOf H r := by
    intro D hD
    rw [recordOf, projCells, enum_pairs_of_map (fun h => pyGetD D h []) H]
    rw [recordOf, buildDict_eq ([] : PyStr), buildDict_eq ([] : PyStr)]
    have hk1 : (H.map (fun h => (h, pyGetD D h []))).map Prod.fst = H := by
      rw [List.map_map]
      have h : (Prod.fst ∘ fun h : PyStr => (h, pyGetD D h [])) = id := rfl
      rw [h, List.map_id]
    rw [hk1, pairs_fst]
    apply List.map_congr_left
    intro k hk
    have hkH : k ∈ H := mem_firstDedup.mp hk
    have h1 : lastVal (H.map (fun h => (h, pyGetD D h []))) [] k =
        pyGetD D k [] := lastVal_keyed H _ [] k hkH
    have h2 : pyGetD D k [] =
        lastVal (H.enum.map (fun ih => (ih.2, r.getD ih.1 []))) [] k := by
      rw [hD, pyGetD, recordOf, pyGet_buildDict, lastVal]
    rw [h1, h2]
  exact key _ rfl

/- ===== Round-trip (C1): the emitted text and its analysis. ===== -/

theorem toCsv_form (records : List Rcd) (H : List PyStr) :
    toCsv records H [','] true ['\n'] =
      '\uFEFF' :: pyJoin ['\n'] ((H :: records.map (projCells H)).map (emitRow [','])) := by
  rw [toCsv]
  simp only [List.map_cons, List.map_map]
  rfl

theorem toCsv_no_cr (H : List PyStr) (rows : List (List PyStr))
    (hH : ∀ h ∈ H, '\r' ∉ h) (hRows : ∀ r ∈ rows, ∀ v ∈ r, '\r' ∉ v) :
    '\r' ∉ toCsv (rowsToObjects rows H) H [','] true ['\n'] := by
  intro hmem
  rw [toCsv_form] at hmem
  rcases List.mem_cons.mp hmem with h | h
  · exact absurd h (by decide)
  · rcases mem_pyJoin h with h | ⟨line, hline, hcr⟩
    · exact absurd h (by decide)
    · rcases List.mem_map.mp hline with ⟨cells, hcells, rfl⟩
      rcases mem_emitRow hcr with h | h | ⟨s, hs, hcrs⟩
      · exact absurd h (by decide)
      · exact absurd h (by decide)
      · rcases List.mem_cons.mp hcells with rfl | hcells
        · exact hH s hs hcrs
        · rcases List.mem_map.mp hcells with ⟨rec, hrec, rfl⟩
          simp only [rowsToObjects] at hrec
          rcases List.mem_map.mp hrec with ⟨r, hr, rfl⟩
          rw [projCells] at hs
          rcases List.mem_map.mp hs with ⟨hname, _, rfl⟩
          rcases pyGetD_recordOf_cases H r hname with hcase | hcase
          · rw [hcase] at hcrs
            simp at hcrs
          · exact hRows r hr _ hcase hcrs

theorem projCells_not_blank (H : List PyStr) (r : List PyStr)
    (hnb : ∃ kv ∈ recordOf H r, pyStrip kv.2 ≠ []) :
    isBlankRow (projCells H (recordOf H r)) = false := by
  rcases hnb with ⟨kv, hkv, hnbv⟩
  have hkey : kv.1 ∈ H := by
    have hk : kv.1 ∈ (recordOf H r).map Prod.fst := List.mem_map.mpr ⟨kv, hkv, rfl⟩
    rw [recordOf_keys] at hk
    exact firstDedup_sub _ _ hk
  have hget : pyGetD (recordOf H r) kv.1 [] = kv.2 := by
    rw [pyGetD, recordOf, mem_buildDict_get _ kv hkv]
    rfl
  rw [isBlankRow]
  apply List.all_eq_false.mpr
  refine ⟨kv.2, ?_, by simp [hnbv]⟩
  rw [projCells]
  exact List.mem_map.mpr ⟨kv.1, hkey, hget⟩

theorem truncPad_of_len (cols : Nat) (r : List PyStr) (h : r.length = cols) :
    truncPad cols r = r := by
  subst h
  rw [truncPad, List.take_length]
  simp

theorem toCsv_guess (records : List Rcd) (H : List PyStr)
    (hH : ∀ h ∈ H, '\t' ∉ h ∧ ';' ∉ h) :
    guessDelimiter (toCsv records H [','] true ['\n']) = ',' := by
  rw [toCsv_form]
  set body := pyJoin ['\n'] ((H :: records.map (projCells H)).map (emitRow [','])) with hbody
  set tw := body.takeWhile (fun c => decide (c ≠ '\n')) with htw
  have htwsub : ∀ x ∈ tw, x ∈ emitRow [','] H := by
    intro x hx
    cases hdl : records.map (projCells H) with
    | nil =>
      rw [htw, hbody, hdl] at hx
      have hone : pyJoin ['\n'] (([H] : List (List PyStr)).map (emitRow [','])) =
          emitRow [','] H := rfl
      rw [hone] at hx
      exact (List.takeWhile_sublist _).subset hx
    | cons dl dls =>
      rw [htw, hbody, hdl] at hx
      have hshape : pyJoin ['\n'] ((H :: dl :: dls).map (emitRow [','])) =
          emitRow [','] H ++ '\n' :: pyJoin ['\n'] ((dl :: dls).map (emitRow [','])) := by
        rw [List.map_cons, List.map_cons, pyJoin_cons2]
        simp
      rw [hshape, takeWhile_append_break _ '\n' (by decide)] at hx
      exact (List.takeWhile_sublist _).subset hx
  have hnt : '\t' ∉ ('\uFEFF' :: tw) := by
    intro hmem
    rcases List.mem_cons.mp hmem with h | h
    · exact absurd h (by decide)
    · rcases mem_emitRow (htwsub _ h) with h | h | ⟨s, hs, hmm⟩
      · exact absurd h (by decide)
      · exact absurd h (by decide)
      · exact (hH s hs).1 hmm
  have hns : ';' ∉ ('\uFEFF' :: tw) := by
    intro hmem
    rcases List.mem_cons.mp hmem with h | h
    · exact absurd h (by decide)
    · rcases mem_emitRow (htwsub _ h) with h | h | ⟨s, hs, hmm⟩
      · exact absurd h (by decide)
      · exact absurd h (by decide)
      · exact (hH s hs).2 hmm
  cases hsp : pySplitNL ('\uFEFF' :: body) with
  | nil => exact absurd hsp (pySplitNL_ne_nil _)
  | cons a tail =>
    have hhead := pySplitNL_head ('\uFEFF' :: body)
    rw [hsp] at hhead
    have ha : a = '\uFEFF' :: tw := by
      rw [List.takeWhile_cons, if_pos (by decide)] at hhead
      simpa [htw] using hhead
    rw [guessDelimiter, hsp, ha]
    rw [List.find?_cons_of_pos _ (by
      simp only [decide_eq_true_eq]
      exact pyStrip_cons_ne_nil _ _ (by decide))]
    simp only [Option.getD_some]
    exact guessFromLine_comma _ hnt hns

/-- Claim C1 counterexample: `decode(encode(decode("a\n,x"))) ≠ decode("a\n,x")`.
    The decode of `"a\n,x"` holds one record whose only field is blank (the raw
    row `["", "x"]` survives the blank test but truncation keeps only the blank
    cell); re-encoding and re-decoding drops that row as blank. -/
theorem csv_roundtrip_counterexample :
    parseCsv ['a', '\n', ',', 'x'] autoStr = [[(['a'], [])]] ∧
    parseCsv
      (toCsv (parseCsv ['a', '\n', ',', 'x'] autoStr)
        (analyzeCsv ['a', '\n', ',', 'x'] autoStr).2.1 [','] true ['\n'])
      autoStr = [] := by decide

/-- Claim C1 (amended): the round-trip holds at the record-set level under the
    conditions the counterexamples force: for every header list whose names
    are strip-fixed, free of leading byte-order marks, and free of carriage
    returns, tabs and semicolons, and every row list whose raw field values
    contain no carriage return and where every record keeps at least one field
    value that does not trim to blank, decoding the encoding of the decoded
    records returns exactly the same records. -/
theorem csv_roundtrip_records (H : List PyStr) (rows : List (List PyStr))
    (hH : ∀ h ∈ H, pyStrip h = h ∧ lstripBOM h = h ∧ '\r' ∉ h ∧ '\t' ∉ h ∧ ';' ∉ h)
    (hRows : ∀ r ∈ rows, (∀ v ∈ r, '\r' ∉ v) ∧ ∃ kv ∈ recordOf H r, pyStrip kv.2 ≠ []) :
    parseCsv (toCsv (rowsToObjects rows H) H [','] true ['\n']) autoStr =
      rowsToObjects rows H := by
  cases H with
  | nil =>
    have hrows : rows = [] := by
      cases rows with
      | nil => rfl
      | cons r t =>
        rcases hRows r (List.mem_cons_self _ _) with ⟨_, kv, hkv, _⟩
        have hrec : recordOf ([] : List PyStr) r = [] := rfl
        rw [hrec] at hkv
        simp at hkv
    subst hrows
    decide
  | cons h0 H2 =>
    have hnoCR : '\r' ∉ toCsv (rowsToObjects rows (h0 :: H2)) (h0 :: H2) [','] true ['\n'] :=
      toCsv_no_cr (h0 :: H2) rows (fun h hh => (hH h hh).2.2.1)
        (fun r hr => (hRows r hr).1)
    have hguess : guessDelimiter (pyNormalize
        (toCsv (rowsToObjects rows (h0 :: H2)) (h0 :: H2) [','] true ['\n'])) = ',' := by
      rw [pyNormalize_id _ hnoCR]
      exact toCsv_guess _ _ (fun h hh => ⟨(hH h hh).2.2.2.1, (hH h hh).2.2.2.2⟩)
    have hused : usedDelim
        (toCsv (rowsToObjects rows (h0 :: H2)) (h0 :: H2) [','] true ['\n']) autoStr = [','] := by
      rw [usedDelim, if_pos rfl, hguess]
    have htok : tokenRows
        (toCsv (rowsToObjects rows (h0 :: H2)) (h0 :: H2) [','] true ['\n']) autoStr =
        (('\uFEFF' :: h0) :: H2) ::
          (rowsToObjects rows (h0 :: H2)).map (projCells (h0 :: H2)) := by
      rw [tokenRows, hused, pyNormalize_id _ hnoCR, toCsv_form]
      rw [scanCSV_other _ _ _ _ _ _ (by decide) (by decide) (by decide)]
      rw [scan_lines _ h0 H2 _ _ _ ?hne]
      · simp
      case hne =>
        intro dc hdc
        rcases List.mem_map.mp hdc with ⟨rec, _, hrec⟩
        rw [← hrec, projCells]
        simp
    have hheaders : ((('\uFEFF' :: h0) :: H2).map headerClean) = h0 :: H2 := by
      rw [List.map_cons]
      congr 1
      · rw [headerClean, lstripBOM, List.dropWhile_cons_of_pos (by decide)]
        have h1 : lstripBOM h0 = h0 := (hH h0 (List.mem_cons_self _ _)).2.1
        rw [lstripBOM] at h1
        rw [h1]
        exact (hH h0 (List.mem_cons_self _ _)).1
      · have hfix : ∀ h ∈ H2, headerClean h = h := by
          intro h hh
          rw [headerClean, (hH h (List.mem_cons_of_mem _ hh)).2.1,
            (hH h (List.mem_cons_of_mem _ hh)).1]
        exact (List.map_congr_left hfix).trans (List.map_id H2)
    have hdlsT : normalizeRows (h0 :: H2).length
        ((rowsToObjects rows (h0 :: H2)).map (projCells (h0 :: H2))) =
        (rowsToObjects rows (h0 :: H2)).map (projCells (h0 :: H2)) := by
      rw [normalizeRows_eq]
      have hfilter : ((rowsToObjects rows (h0 :: H2)).map (projCells (h0 :: H2))).filter
          (fun r => !isBlankRow r) =
          (rowsToObjects rows (h0 :: H2)).map (projCells (h0 :: H2)) := by
        rw [List.filter_eq_self]
        intro dc hdc
        rcases List.mem_map.mp hdc with ⟨rec, hrec, hdcq⟩
        simp only [rowsToObjects] at hrec
        rcases List.mem_map.mp hrec with ⟨r, hr, hrecq⟩
        rcases hRows r hr with ⟨_, hnb⟩
        rw [← hdcq, ← hrecq, projCells_not_blank _ _ hnb]
        rfl
      rw [hfilter]
      have htr : ∀ dc ∈ (rowsToObjects rows (h0 :: H2)).map (projCells (h0 :: H2)),
          truncPad (h0 :: H2).length dc = dc := by
        intro dc hdc
        rcases List.mem_map.mp hdc with ⟨rec, _, hdcq⟩
        rw [← hdcq]
        apply truncPad_of_len
        rw [projCells, List.length_map]
      exact (List.map_congr_left htr).trans (List.map_id _)
    have hana : analyzeCsv
        (toCsv (rowsToObjects rows (h0 :: H2)) (h0 :: H2) [','] true ['\n']) autoStr =
        ((rowsToObjects rows (h0 :: H2)).map (projCells (h0 :: H2)), h0 :: H2, [',']) := by
      simp only [analyzeCsv, htok]
      rw [hheaders, hused, hdlsT]
    rw [parseCsv, hana]
    simp only [rowsToObjects, List.map_map]
    apply List.map_congr_left
    intro r _
    exact records_rebuild (h0 :: H2) r

/-- Witness for C1 at the header `["a"]` and the single row `["x"]`. -/
theorem csv_roundtrip_records_witness :
    parseCsv (toCsv (rowsToObjects [[['x']]] [['a']]) [['a']] [','] true ['\n']) autoStr =
      rowsToObjects [[['x']]] [['a']] :=
  csv_roundtrip_records [['a']] [[['x']]] (by decide) (by decide)
